import Mathlib

/-!
Verification development for the claude-monitor incremental parsing and
artifact-extraction engine (`conversationParserService.js` and
`artifactExtractorService.js`).

The JavaScript services are shallowly embedded as pure Lean functions over an
explicit database state.  Modelling conventions, used throughout:

* JSON values decoded by `JSON.parse` are modelled by the inductive `JVal`.
  A line of an event-log file is carried together with its decode result
  (`LineModel`), since the services only ever consume the raw text and the
  parse outcome of each non-empty line.
* SHA-256 hashing (`crypto.createHash('sha256')`) is modelled by an injective
  function on strings; we use the identity function.  The services depend on
  hashes only through equality, and SHA-256 is treated as collision-free by
  the design, so identity preserves exactly the behaviour under study.
* JavaScript truthiness is modelled by `JVal.truthy`; `x || null` coercions
  performed at the storage boundary are modelled by explicit `orNull`
  helpers.
* `JSON.stringify` is modelled by `JVal.stringify`.  The pretty-printing
  variant `JSON.stringify(v, null, 2)` is rendered compactly: no claim
  depends on indentation, and because hashing is modelled as the identity,
  only equalities between our own serialisations ever matter.
* String lengths count characters; the inputs under study are ASCII, where
  this agrees with JavaScript UTF-16 lengths.
-/

namespace NW

/-- A decoded JSON value (the result of a successful `JSON.parse`). -/
inductive JVal where
  | null
  | bool (b : Bool)
  | num (n : Int)
  | str (s : String)
  | arr (xs : List JVal)
  | obj (fields : List (String × JVal))

namespace JVal

/-- Property access `v.k` on a decoded value: defined only on objects.
`JSON.parse` output has unique keys (last duplicate wins during parsing), so
first-match lookup is adequate. -/
def getField : JVal → String → Option JVal
  | .obj fields, k => fields.lookup k
  | _, _ => none

/-- JavaScript truthiness of a decoded JSON value. -/
def truthy : JVal → Bool
  | .null => false
  | .bool b => b
  | .num n => n != 0
  | .str s => s != ""
  | .arr _ => true
  | .obj _ => true

end JVal

/-- Truthiness of a possibly-absent (`undefined`) value. -/
def truthyOpt : Option JVal → Bool
  | none => false
  | some v => v.truthy

/-- Decimal digits, fuel-based so that the kernel can evaluate it by
structural recursion.  Each recursive call divides `n` by 10, so any fuel
above the digit count (in particular `n + 1`) is sufficient and the `0`
case is never reached from `natDigits`. -/
def natDigitsGo : Nat → Nat → List Char
  | 0, _ => []
  | fuel + 1, n =>
    if n < 10 then [Char.ofNat (48 + n)]
    else natDigitsGo fuel (n / 10) ++ [Char.ofNat (48 + n % 10)]

/-- Decimal digits of a natural number, most significant first. -/
def natDigits (n : Nat) : List Char :=
  natDigitsGo (n + 1) n

/-- Decimal rendering of an integer, as JavaScript renders integral numbers. -/
def intStr (n : Int) : String :=
  if n < 0 then "-" ++ String.mk (natDigits n.natAbs)
  else String.mk (natDigits n.natAbs)

/-- Escaping of a string for inclusion in serialised JSON.  Control-character
`\uXXXX` escapes are omitted: the inputs under study do not contain them, and
only equalities between our own serialisations matter (see header note). -/
def jsonEscape (s : String) : String :=
  String.mk (s.toList.flatMap fun c =>
    if c = '"' then ['\\', '"']
    else if c = '\\' then ['\\', '\\']
    else if c = '\n' then ['\\', 'n']
    else if c = '\t' then ['\\', 't']
    else if c = '\r' then ['\\', 'r']
    else [c])

mutual

/-- Models `JSON.stringify` on a decoded value. -/
def JVal.stringify : JVal → String
  | .null => "null"
  | .bool b => if b then "true" else "false"
  | .num n => intStr n
  | .str s => "\"" ++ jsonEscape s ++ "\""
  | .arr xs => "[" ++ stringifyList xs ++ "]"
  | .obj fields => "\x7b" ++ stringifyFields fields ++ "\x7d"

/-- Comma-separated serialisation of array elements. -/
def stringifyList : List JVal → String
  | [] => ""
  | [x] => JVal.stringify x
  | x :: xs => JVal.stringify x ++ "," ++ stringifyList xs

/-- Comma-separated serialisation of object fields. -/
def stringifyFields : List (String × JVal) → String
  | [] => ""
  | [(k, v)] => "\"" ++ jsonEscape k ++ "\":" ++ JVal.stringify v
  | (k, v) :: fs => "\"" ++ jsonEscape k ++ "\":" ++ JVal.stringify v ++ "," ++ stringifyFields fs

end

/-- Models `JSON.stringify` of an object literal some of whose values may be
`undefined` (`none`): JavaScript drops such keys from the output. -/
def stringifyObjLit (fields : List (String × Option JVal)) : String :=
  "\x7b" ++ stringifyFields (fields.filterMap fun kv => kv.2.map fun v => (kv.1, v)) ++ "\x7d"

mutual

/-- JavaScript string coercion `String(v)` of a decoded JSON value, as it
occurs in template literals and `+` concatenation.  Arrays coerce through
`Array.prototype.toString`, i.e. `join(',')`, under which `null` elements
render as the empty string. -/
def jsCoerce : JVal → String
  | .null => "null"
  | .bool b => if b then "true" else "false"
  | .num n => intStr n
  | .str s => s
  | .arr xs => jsCoerceJoin xs
  | .obj _ => "[object Object]"

/-- Models `Array.prototype.join(',')` under JavaScript string coercion. -/
def jsCoerceJoin : List JVal → String
  | [] => ""
  | [JVal.null] => ""
  | [x] => jsCoerce x
  | JVal.null :: xs => "," ++ jsCoerceJoin xs
  | x :: xs => jsCoerce x ++ "," ++ jsCoerceJoin xs

end

/-- Coercion in a template literal, where an absent value prints as
`undefined`. -/
def tmplCoerce : Option JVal → String
  | none => "undefined"
  | some v => jsCoerce v

/-- Models `a.includes(b)` on JavaScript strings: contiguous substring test. -/
def sIncludes (s pat : String) : Bool :=
  go pat.toList s.toList
where
  go (p : List Char) : List Char → Bool
    | [] => p.isEmpty
    | c :: rest => p.isPrefixOf (c :: rest) || go p rest

/-- The ASCII part of the regex class `\s` (also the character set of
JavaScript string trimming); the Unicode space characters it also covers do
not occur in the modelled inputs. -/
def jsWhitespace (c : Char) : Bool :=
  c = ' ' ∨ c = '\t' ∨ c = '\n' ∨ c = '\r' ∨ c = '\x0b' ∨ c = '\x0c'

/-- Models `s.toLowerCase()` (ASCII case mapping, which covers the modelled
inputs). -/
def toLowerStr (s : String) : String :=
  String.mk (s.toList.map Char.toLower)

/-- Models `s.trim()`: strip leading and trailing whitespace. -/
def jsTrim (s : String) : String :=
  String.mk (((s.toList.dropWhile jsWhitespace).reverse.dropWhile jsWhitespace).reverse)

/-- Models `s.slice(-n)`: the last `n` characters (the whole string if shorter). -/
def strSliceLast (s : String) (n : Nat) : String :=
  String.mk (s.toList.drop (s.toList.length - n))

/-- Models `s.slice(0, n)`: the first `n` characters. -/
def strTake (s : String) (n : Nat) : String :=
  String.mk (s.toList.take n)

/-- Replace the first occurrence of `pat` in `s` (JavaScript
`String.prototype.replace` with a string pattern replaces only the first). -/
def replaceFirst (s pat repl : String) : String :=
  String.mk (go s.toList pat.toList repl.toList)
where
  go : List Char → List Char → List Char → List Char
    | [], _, _ => []
    | c :: rest, p, r =>
      if p.isPrefixOf (c :: rest) then r ++ (c :: rest).drop p.length
      else c :: go rest p r

/-- Split a character list on every occurrence of a separator character
(`String.prototype.split` with a single-character pattern: the result always
contains at least one, possibly empty, group). -/
def splitOnChar (sep : Char) : List Char → List (List Char)
  | [] => [[]]
  | c :: rest =>
    match splitOnChar sep rest with
    | [] => [[]]
    | grp :: grps => if c = sep then [] :: grp :: grps else (c :: grp) :: grps

/-- Models `filePath.split(/[/\\]/).pop()`: the path component after the last slash
or backslash. -/
def lastPathComponent (s : String) : String :=
  String.mk ((splitOnChar '/'
    (s.toList.map fun c => if c = '\\' then '/' else c)).getLastD [])

/-- Models `filePath.toLowerCase().split('.').pop()`: the extension computed by
`processFile` — the last dot-separated segment of the lowercased path (the
whole lowercased path when it contains no dot). -/
def lastDotSegment (s : String) : String :=
  String.mk ((splitOnChar '.' (toLowerStr s).toList).getLastD [])

/-! ### File-system model

A source file is consumed by the services at exactly two granularities: the
whole text (plain-text strategy, whole-file hashing) and the list of
non-empty lines together with each line's `JSON.parse` outcome (event-log
strategy).  `FileModel` carries both; the relation between `text` and
`lines` is not needed by any claim and is left unconstrained. -/

/-- One non-empty line of an event-log file: its raw text and the outcome of
`JSON.parse` on it (`none` models a thrown decode error). -/
structure LineModel where
  raw : String
  parsed : Option JVal

/-- A file present on disk. -/
structure FileModel where
  text : String
  lines : List LineModel

/-- The file system: `none` models `fs.existsSync(path) = false`. -/
def Fs := String → Option FileModel

/-! ### Stored data model

Rows of the tables consumed through the storage contract, as created by the
schema in `server/index.js`: `conversations`, `conversation_entries` (with
`UNIQUE(conversation_id, entry_hash)`), `artifacts` (no uniqueness
constraint on the content hash — deduplication there is only the
`artifactExists` pre-check), and `conversation_parse_state` (with
`file_path TEXT UNIQUE`). -/

/-- A row of `conversations`.  The derived `duration_seconds` column is not
modelled: it is computed from the two timestamps via `Date` parsing and no
claim refers to it. -/
structure Conversation where
  id : Nat
  conversationId : String
  sourceFilePath : String
  sourceFileType : String
  projectId : Option Nat
  modelUsed : Option String
  claudeCodeVersion : Option String
  gitBranch : Option String
  workingDirectory : Option String
  messageCount : Nat
  startedAt : Option String
  endedAt : Option String
deriving DecidableEq

/-- A row of `conversation_entries`. -/
structure Entry where
  id : Nat
  conversationId : Nat
  entryHash : String
  entryIndex : Nat
  role : String
  content : String
  timestamp : Option String
deriving DecidableEq

/-- A row of `conversation_parse_state` (one checkpoint per file path). -/
structure ParseState where
  filePath : String
  lastLineNumber : Nat
  lastEntryHash : Option String
deriving DecidableEq

/-- A row of `artifacts`, with the exact columns written by
`storeArtifact`. -/
structure Artifact where
  conversationId : Nat
  entryId : Option Nat
  artifactType : String
  language : Option String
  toolName : Option String
  content : Option String
  metadata : Option String
  contentHash : String
  outcome : Option String
  outputSummary : Option String
  outputFull : Option String
  outputSizeBytes : Option Nat
  outputTruncated : Bool
  errorType : Option String
  promptContext : Option String
  followUpAction : Option String
deriving DecidableEq

/-- The persistent store.  Row lists are kept in insertion order; `nextConvId`
and `nextEntryId` model the auto-increment row ids. -/
structure Db where
  conversations : List Conversation
  entries : List Entry
  parseStates : List ParseState
  artifacts : List Artifact
  nextConvId : Nat
  nextEntryId : Nat
deriving DecidableEq

/-- The empty store. -/
def Db.empty : Db :=
  { conversations := [], entries := [], parseStates := [], artifacts := [],
    nextConvId := 1, nextEntryId := 1 }

/-- Result object of `parseFile` / `parseJSONL` / `parseTXT`.  Keys absent
from a particular return site are modelled as `none` / `0`. -/
structure ParseResult where
  success : Bool
  error : Option String
  conversationId : Option Nat
  sessionId : Option String
  newEntries : Nat
  skipped : Nat
  totalLines : Option Nat
deriving DecidableEq

/-- Result object of the artifact-extraction entry points.  Keys absent from
a particular return site are modelled as `0` / `none`. -/
structure ExtractResult where
  success : Bool
  error : Option String
  codeBlocks : Nat
  toolCalls : Nat
  toolResults : Nat
  jsonObjects : Nat
  skipped : Nat
deriving DecidableEq

/-! ### Conversation parser service (`conversationParserService.js`) -/

/-- Models `hashContent`: SHA-256 modelled as an injective function on strings (the
identity — see the header note). -/
def hashContent (content : String) : String := content

/-- Models `getParseState`: the stored checkpoint row for a file path, if any. -/
def getParseState (db : Db) (filePath : String) : Option ParseState :=
  db.parseStates.find? fun ps => ps.filePath = filePath

/-- Models `updateParseState`: upsert of the checkpoint row for a file path. -/
def updateParseState (db : Db) (filePath : String) (lineNumber : Nat)
    (entryHash : Option String) : Db :=
  let row : ParseState :=
    { filePath := filePath, lastLineNumber := lineNumber, lastEntryHash := entryHash }
  if (db.parseStates.find? fun ps => ps.filePath = filePath).isSome then
    { db with parseStates :=
        db.parseStates.map fun ps => if ps.filePath = filePath then row else ps }
  else
    { db with parseStates := db.parseStates ++ [row] }

/-- The environment metadata picked up alongside the session id. -/
structure SessionMeta where
  version : Option JVal
  gitBranch : Option JVal
  cwd : Option JVal
  model : Option JVal

/-- Metadata `{}` (all fields `undefined`). -/
def SessionMeta.emptyMeta : SessionMeta :=
  { version := none, gitBranch := none, cwd := none, model := none }

/-- A `metadata.x || null` column value: `null` for a falsy/absent field,
otherwise the value as bound at the storage layer (string coercion; the
fields under study are strings). -/
def jFieldOrNull (v : Option JVal) : Option String :=
  v.bind fun x => if x.truthy then some (jsCoerce x) else none

/-- Models `findOrCreateConversation`: look up by business key `conversation_id`,
inserting a fresh row if absent.  Columns not listed in the `INSERT` take
their defaults from the `conversations` schema in `server/index.js`:
`message_count INTEGER DEFAULT 0` and nullable `started_at` / `ended_at`
(populated by `updateConversationStats` after every batch). -/
def findOrCreateConversation (sessionId filePath fileType : String)
    (metadata : SessionMeta) (db : Db) : Conversation × Db :=
  match db.conversations.find? fun c => c.conversationId = sessionId with
  | some c => (c, db)
  | none =>
    let row : Conversation :=
      { id := db.nextConvId
        conversationId := sessionId
        sourceFilePath := filePath
        sourceFileType := fileType
        projectId := none
        modelUsed := jFieldOrNull metadata.model
        claudeCodeVersion := jFieldOrNull metadata.version
        gitBranch := jFieldOrNull metadata.gitBranch
        workingDirectory := jFieldOrNull metadata.cwd
        messageCount := 0
        startedAt := none
        endedAt := none }
    (row, { db with conversations := db.conversations ++ [row],
                    nextConvId := db.nextConvId + 1 })

/-- Models `insertEntry`: insert of a conversation entry, returning `false` and
leaving the store unchanged on a duplicate.  The `conversation_entries`
schema in `server/index.js` declares `UNIQUE(conversation_id, entry_hash)`,
so the `INSERT` raises a UNIQUE-constraint violation exactly when the pair
is already stored, which the `catch` turns into `false`; any other error is
rethrown (no other error source exists in this model). -/
def insertEntry (conversationId : Nat) (entryHash : String) (entryIndex : Nat)
    (role content : String) (timestamp : Option String) (db : Db) : Bool × Db :=
  if db.entries.any fun e =>
      e.conversationId = conversationId ∧ e.entryHash = entryHash then
    (false, db)
  else
    (true, { db with
      entries := db.entries ++
        [{ id := db.nextEntryId, conversationId := conversationId,
           entryHash := entryHash, entryIndex := entryIndex, role := role,
           content := content, timestamp := timestamp }]
      nextEntryId := db.nextEntryId + 1 })

/-- The minimum of a list of strings under byte order (SQL `MIN` over a TEXT
column, ignoring NULLs). -/
def strMin (l : List String) : Option String :=
  l.foldl (fun acc s =>
    match acc with
    | none => some s
    | some t => some (if s < t then s else t)) none

/-- The maximum of a list of strings under byte order (SQL `MAX`). -/
def strMax (l : List String) : Option String :=
  l.foldl (fun acc s =>
    match acc with
    | none => some s
    | some t => some (if t < s then s else t)) none

/-- Models `updateConversationStats`: recompute message count and min/max timestamp
of a conversation from its stored entries (the derived duration column is
not modelled, see `Conversation`). -/
def updateConversationStats (db : Db) (conversationId : Nat) : Db :=
  let convEntries := db.entries.filter fun e => e.conversationId = conversationId
  let timestamps := convEntries.filterMap fun e => e.timestamp
  { db with conversations := db.conversations.map fun c =>
      if c.id = conversationId then
        { c with messageCount := convEntries.length,
                 startedAt := strMin timestamps,
                 endedAt := strMax timestamps }
      else c }

/-- The `UPDATE conversations SET project_id = ?` step. -/
def setProjectId (db : Db) (conversationId : Nat) (projectId : Option Nat) : Db :=
  { db with conversations := db.conversations.map fun c =>
      if c.id = conversationId then { c with projectId := projectId } else c }

/-- Models `entry.type === t` (strict equality against a string literal; a missing
or non-string discriminant never matches). -/
def typeIs (entry : JVal) (t : String) : Bool :=
  match entry.getField "type" with
  | some (JVal.str u) => u = t
  | _ => false

/-- Models `entry.message?.role`, kept only when truthy. -/
def msgRoleTruthy (entry : JVal) : Option JVal :=
  ((entry.getField "message").bind fun m => m.getField "role").bind fun v =>
    if v.truthy then some v else none

/-- Models `extractRole`. -/
def extractRole (entry : JVal) : String :=
  match msgRoleTruthy entry with
  | some v => jsCoerce v
  | none =>
    if typeIs entry "user" then "user"
    else if typeIs entry "assistant" then "assistant"
    else if typeIs entry "tool_result" || typeIs entry "tool" then "tool"
    else "system"

/-- Rendering of one content block inside `extractContent`.  The rendered
blocks are joined with `'\n\n'` by `Array.prototype.join`, under which an
`undefined` or `null` map result renders as the empty string. -/
def renderBlock (block : JVal) : String :=
  match block with
  | JVal.str s => s
  | _ =>
    if typeIs block "text" then
      -- `return block.text`: join coerces an absent value to the empty string
      match block.getField "text" with
      | none => ""
      | some JVal.null => ""
      | some v => jsCoerce v
    else if typeIs block "tool_use" then
      "[Tool: " ++ tmplCoerce (block.getField "name") ++ "]\n" ++
        (match block.getField "input" with
         | none => "undefined"   -- JSON.stringify(undefined) in a template literal
         | some v => v.stringify)
    else if typeIs block "tool_result" then
      "[Tool Result: " ++ tmplCoerce (block.getField "tool_use_id") ++ "]\n" ++
        (match block.getField "content" with
         | some (JVal.str s) => s
         | some v => v.stringify
         | none => "undefined")
    else
      block.stringify

/-- Models `extractContent`: `none` models a `null` return (no `message.content`, or
a falsy one).  The loop in `parseJSONL` treats an empty rendering the same
way via its own falsy check. -/
def extractContent (entry : JVal) : Option String :=
  match (entry.getField "message").bind fun m => m.getField "content" with
  | none => none
  | some c =>
    if ¬ c.truthy then none
    else some (match c with
      | JVal.arr blocks => String.intercalate "\n\n" (blocks.map renderBlock)
      | JVal.str s => s
      | other => other.stringify)

/-- Models `entry.timestamp || null`, as bound at the storage layer. -/
def tsOf (entry : JVal) : Option String :=
  jFieldOrNull (entry.getField "timestamp")

/-- State threaded through the per-line loop of `parseJSONL`. -/
structure JsonlLoopState where
  db : Db
  newEntries : Nat
  skipped : Nat
  entryIndex : Nat
  lastHash : Option String

/-- One iteration of the `parseJSONL` line loop (lines 238–275 of the
source): decode, filter by discriminant, derive role and content, insert
with the raw-line hash as dedup key. -/
def parseJsonlLine (conversationId : Nat) (st : JsonlLoopState)
    (line : LineModel) : JsonlLoopState :=
  let lineHash := hashContent line.raw
  match line.parsed with
  | none => st   -- JSON.parse threw; the line is logged and skipped
  | some entry =>
    if ¬ (typeIs entry "user" || typeIs entry "assistant" || typeIs entry "tool_result") then
      st
    else
      let role := extractRole entry
      match extractContent entry with
      | none => st
      | some content =>
        if content = "" then st   -- `if (!content) continue`
        else
          let ins :=
            insertEntry conversationId lineHash st.entryIndex role content (tsOf entry) st.db
          { db := ins.2
            newEntries := st.newEntries + (if ins.1 then 1 else 0)
            skipped := st.skipped + (if ins.1 then 0 else 1)
            entryIndex := st.entryIndex + 1
            lastHash := some lineHash }

/-- The session-discovery pass of `parseJSONL` (lines 203–218): the first
decodable line with a truthy `sessionId` wins and also supplies the
environment metadata. -/
def findSessionLine (lines : List LineModel) : Option JVal :=
  lines.findSome? fun l =>
    l.parsed.bind fun e =>
      if truthyOpt (e.getField "sessionId") then some e else none

/-- Models `parseJSONL`. -/
def parseJSONL (fs : Fs) (filePath : String) (projectId : Option Nat) (db : Db) :
    ParseResult × Db :=
  match fs filePath with
  | none =>
    ({ success := false, error := some "File not found", conversationId := none,
       sessionId := none, newEntries := 0, skipped := 0, totalLines := none }, db)
  | some fm =>
    let startLine := ((getParseState db filePath).map fun ps => ps.lastLineNumber).getD 0
    let lines := fm.lines
    if lines.length ≤ startLine then
      ({ success := true, error := none, conversationId := none, sessionId := none,
         newEntries := 0, skipped := 0, totalLines := none }, db)
    else
      let sessInfo : String × SessionMeta :=
        match findSessionLine lines with
        | some e =>
          (jsCoerce ((e.getField "sessionId").getD JVal.null),
           { version := e.getField "version", gitBranch := e.getField "gitBranch",
             cwd := e.getField "cwd", model := e.getField "model" : SessionMeta })
        | none =>
          (replaceFirst (lastPathComponent filePath) ".jsonl" "", SessionMeta.emptyMeta)
      let sessionId := sessInfo.1
      let fc := findOrCreateConversation sessionId filePath "jsonl" sessInfo.2 db
      let conversation := fc.1
      let db1 := fc.2
      let conversationId := conversation.id
      let db2 :=
        if projectId.isSome ∧ conversation.projectId = none then
          setProjectId db1 conversationId projectId
        else db1
      let final :=
        (lines.drop startLine).foldl (parseJsonlLine conversationId)
          { db := db2, newEntries := 0, skipped := 0, entryIndex := startLine,
            lastHash := none }
      let db3 :=
        if final.newEntries > 0 ∨ lines.length > startLine then
          updateConversationStats
            (updateParseState final.db filePath lines.length final.lastHash)
            conversationId
        else final.db
      ({ success := true, error := none, conversationId := some conversationId,
         sessionId := some sessionId, newEntries := final.newEntries,
         skipped := final.skipped, totalLines := some lines.length }, db3)

/-- The alternation `(Human:|Assistant:|>)` of the role-marker pattern, tried
at one position: the matched (captured) marker text and the remaining
characters. -/
def markerSplit (cs : List Char) : Option (String × List Char) :=
  if "Human:".toList.isPrefixOf cs then some ("Human:", cs.drop 6)
  else if "Assistant:".toList.isPrefixOf cs then some ("Assistant:", cs.drop 10)
  else if ['>'].isPrefixOf cs then some (">", cs.drop 1)
  else none

theorem markerSplit_length {cs : List Char} {m : String} {rest : List Char}
    (h : markerSplit cs = some (m, rest)) : rest.length < cs.length := by
  unfold markerSplit at h
  split at h
  · next hp =>
    cases h
    have := (List.isPrefixOf_iff_prefix.mp hp).length_le
    simp only [List.length_drop]
    simp at this
    omega
  · split at h
    · next hp =>
      cases h
      have := (List.isPrefixOf_iff_prefix.mp hp).length_le
      simp only [List.length_drop]
      simp at this
      omega
    · split at h
      · next hp =>
        cases h
        have := (List.isPrefixOf_iff_prefix.mp hp).length_le
        simp only [List.length_drop]
        simp at this
        omega
      · cases h

/-- Worker for `content.split(/^(Human:|Assistant:|>)\s*/gm)`: walks the
text, and at every line start where the alternation matches, emits the
segment accumulated so far followed by the captured marker (JavaScript
`String.prototype.split` interleaves capture groups with the segments),
swallowing the `\s*` run after the marker.  `lineStart` tracks whether the
current position is at offset 0 or just after a newline (the `^` anchor
under the `m` flag). -/
def splitGo (cs : List Char) (lineStart : Bool) (acc : List Char)
    (out : List String) : List String :=
  match cs with
  | [] => out ++ [String.mk acc.reverse]
  | c :: rest =>
    match hm : (if lineStart then markerSplit (c :: rest) else none) with
    | some (marker, afterMarker) =>
      let ws := afterMarker.takeWhile jsWhitespace
      let afterWs := afterMarker.drop ws.length
      splitGo afterWs (ws ≠ [] ∧ ws.getLastD ' ' = '\n') []
        (out ++ [String.mk acc.reverse, marker])
    | none => splitGo rest (c = '\n') (c :: acc) out
termination_by cs.length
decreasing_by
  · have hms : markerSplit (c :: rest) = some (marker, afterMarker) := by
      by_cases hls : lineStart = true
      · simpa [hls] using hm
      · simp [Bool.not_eq_true] at hls
        simp [hls] at hm
    have h1 := markerSplit_length hms
    simp only [List.length_drop]
    omega
  · simp

/-- Models `content.split(/^(Human:|Assistant:|>)\s*/gm)`. -/
def splitRoleMarkers (content : String) : List String :=
  splitGo content.toList true [] []

/-- State threaded through the per-block loop of `parseTXT`. -/
structure TxtLoopState where
  db : Db
  newEntries : Nat
  skipped : Nat
  entryIndex : Nat
  currentRole : String

/-- One iteration of the `parseTXT` block loop (lines 338–370 of the
source): marker-only blocks switch the running role, other blocks are
inserted keyed by their own (trimmed) hash. -/
def txtBlockStep (conversationId : Nat) (st : TxtLoopState) (rawBlock : String) :
    TxtLoopState :=
  let block := jsTrim rawBlock
  if block = "Human:" ∨ block = ">" then { st with currentRole := "user" }
  else if block = "Assistant:" then { st with currentRole := "assistant" }
  else if block = "" then st   -- `if (!block) continue`
  else
    let blockHash := hashContent block
    let ins :=
      insertEntry conversationId blockHash st.entryIndex st.currentRole block none st.db
    { st with
      db := ins.2
      newEntries := st.newEntries + (if ins.1 then 1 else 0)
      skipped := st.skipped + (if ins.1 then 0 else 1)
      entryIndex := st.entryIndex + 1 }

/-- Models `parseTXT`. -/
def parseTXT (fs : Fs) (filePath : String) (projectId : Option Nat) (db : Db) :
    ParseResult × Db :=
  match fs filePath with
  | none =>
    ({ success := false, error := some "File not found", conversationId := none,
       sessionId := none, newEntries := 0, skipped := 0, totalLines := none }, db)
  | some fm =>
    let parseState := getParseState db filePath
    let contentHash := hashContent fm.text
    if (parseState.map fun ps => ps.lastEntryHash).getD none = some contentHash then
      ({ success := true, error := none, conversationId := none, sessionId := none,
         newEntries := 0, skipped := 0, totalLines := none }, db)
    else
      let basename := replaceFirst (lastPathComponent filePath) ".txt" ""
      let sessionId := "txt-" ++ basename
      let fc := findOrCreateConversation sessionId filePath "txt" SessionMeta.emptyMeta db
      let conversation := fc.1
      let db1 := fc.2
      let conversationId := conversation.id
      let db2 :=
        if projectId.isSome ∧ conversation.projectId = none then
          setProjectId db1 conversationId projectId
        else db1
      let blocks := (splitRoleMarkers fm.text).filter fun s => jsTrim s ≠ ""
      let final := blocks.foldl (txtBlockStep conversationId)
        { db := db2, newEntries := 0, skipped := 0, entryIndex := 0,
          currentRole := "user" }
      let db3 := updateConversationStats
        (updateParseState final.db filePath 0 (some contentHash)) conversationId
      ({ success := true, error := none, conversationId := some conversationId,
         sessionId := some sessionId, newEntries := final.newEntries,
         skipped := final.skipped, totalLines := none }, db3)

/-- Models `processFile`: format dispatch on the last dot-separated segment of the
lowercased path. -/
def processFile (fs : Fs) (filePath : String) (projectId : Option Nat) (db : Db) :
    ParseResult × Db :=
  let ext := lastDotSegment filePath
  if ext = "jsonl" then parseJSONL fs filePath projectId db
  else if ext = "txt" then parseTXT fs filePath projectId db
  else
    ({ success := false, error := some "Unknown format", conversationId := none,
       sessionId := none, newEntries := 0, skipped := 0, totalLines := none }, db)

/-! ### Artifact extractor service (`artifactExtractorService.js`) -/

/-- Models `MAX_OUTPUT_SIZE` (10 KB). -/
def MAX_OUTPUT_SIZE : Nat := 10240

/-- Models `SUMMARY_LENGTH`. -/
def SUMMARY_LENGTH : Nat := 500

/-- Models `PROMPT_CONTEXT_LENGTH`. -/
def PROMPT_CONTEXT_LENGTH : Nat := 200

/-- Models `artifactExists`: is an artifact with this `(conversation, content hash)`
pair already stored? -/
def artifactExists (db : Db) (conversationId : Nat) (contentHash : String) : Bool :=
  db.artifacts.any fun a =>
    a.conversationId = conversationId ∧ a.contentHash = contentHash

/-- The artifact object handed to `storeArtifact`, field for field.  Fields a
call site leaves out of the object literal are `none` / `false`.  `metadata`
is an object literal whose values may be `undefined` (dropped by
`JSON.stringify`). -/
structure ArtifactSpec where
  conversationId : Nat
  entryId : Option Nat
  type : String
  language : Option String
  toolName : Option JVal
  content : Option String
  metadata : Option (List (String × Option JVal))
  contentHash : String
  outcome : Option String
  outputSummary : Option String
  outputFull : Option String
  outputSizeBytes : Option Nat
  outputTruncated : Bool
  errorType : Option String
  promptContext : Option String
  followUpAction : Option String

/-- An `x || null` column coercion on an optional string: absent or empty
becomes NULL. -/
def orNullStr (v : Option String) : Option String :=
  v.bind fun s => if s = "" then none else some s

/-- The row written by `storeArtifact`, with its `|| null` coercions: falsy
strings and a zero byte size are stored as NULL, `outputTruncated` is stored
as 0/1, and `metadata` is serialised. -/
def storeRow (a : ArtifactSpec) : Artifact :=
  { conversationId := a.conversationId
    entryId := a.entryId
    artifactType := a.type
    language := orNullStr a.language
    toolName := a.toolName.bind fun v => if v.truthy then some (jsCoerce v) else none
    content := orNullStr a.content
    metadata := a.metadata.map stringifyObjLit
    contentHash := a.contentHash
    outcome := orNullStr a.outcome
    outputSummary := orNullStr a.outputSummary
    outputFull := orNullStr a.outputFull
    outputSizeBytes := a.outputSizeBytes.bind fun n => if n = 0 then none else some n
    outputTruncated := a.outputTruncated
    errorType := orNullStr a.errorType
    promptContext := orNullStr a.promptContext
    followUpAction := orNullStr a.followUpAction }

/-- Models `storeArtifact`. -/
def storeArtifact (db : Db) (a : ArtifactSpec) : Db :=
  { db with artifacts := db.artifacts ++ [storeRow a] }

/-- A fenced region found by `extractCodeBlocks`. -/
structure CodeBlock where
  language : String
  content : String
deriving DecidableEq

/-- The first occurrence of `pat` in `cs`: the characters before it and the
characters after it. -/
def splitAtSub (pat : List Char) : List Char → Option (List Char × List Char)
  | [] => none
  | c :: rest =>
    if pat.isPrefixOf (c :: rest) then some ([], (c :: rest).drop pat.length)
    else match splitAtSub pat rest with
      | some (a, b) => some (c :: a, b)
      | none => none

theorem splitAtSub_length {pat cs : List Char} {a b : List Char}
    (h : splitAtSub pat cs = some (a, b)) : b.length ≤ cs.length := by
  induction cs generalizing a with
  | nil => simp [splitAtSub] at h
  | cons c rest ih =>
    unfold splitAtSub at h
    split at h
    · cases h
      simp only [List.length_drop, List.length_cons]
      omega
    · revert h
      split
      · next a' b' heq =>
        intro h
        cases h
        have := ih heq
        simp only [List.length_cons]
        omega
      · intro h
        cases h

/-- The character class `\w` (`[A-Za-z0-9_]`). -/
def isWordChar (c : Char) : Bool :=
  c.isAlphanum || c = '_'

/-- One attempt of the regex `/```(\w*)\n([\s\S]*?)```/g` of
`extractCodeBlocks` at the current position: an opening triple backtick
followed by a maximal word-character run and then a newline matches up to
the nearest later triple backtick (the lazy body); the result is the
language tag, the body, and the characters after the closing fence. -/
def fenceMatch (cs : List Char) : Option (String × String × List Char) :=
  if ['`', '`', '`'].isPrefixOf cs then
    match (cs.drop 3).drop ((cs.drop 3).takeWhile isWordChar).length with
    | '\n' :: body0 =>
      match splitAtSub ['`', '`', '`'] body0 with
      | some (body, rest2) =>
        some (String.mk ((cs.drop 3).takeWhile isWordChar), String.mk body, rest2)
      | none => none
    | _ => none
  else none

theorem fenceMatch_length {cs : List Char} {lang body : String} {rest2 : List Char}
    (h : fenceMatch cs = some (lang, body, rest2)) : rest2.length < cs.length := by
  unfold fenceMatch at h
  split at h
  · next hp =>
    have hlen : 3 ≤ cs.length := by
      have := (List.isPrefixOf_iff_prefix.mp hp).length_le
      simpa using this
    split at h
    · next body0 heq =>
      split at h
      · next b r2 hs =>
        cases h
        have h1 := splitAtSub_length hs
        have h2 : cs.length - (3 + ((cs.drop 3).takeWhile isWordChar).length)
            = body0.length + 1 := by
          have := congrArg List.length heq
          simpa using this
        omega
      · cases h
    · cases h
  · cases h

/-- Scanner for the full `/g`-mode regex, fuel-based so that the kernel can
evaluate it by structural recursion: a successful match attempt resumes
after the closing fence, a failed attempt advances by one character, exactly
as the regex engine searches for the next match.  Every recursive call
strictly shortens the character list (`fenceMatch_length`), so any fuel at
least the list length suffices and the `0`/non-empty case is never reached
from `codeBlockScan`. -/
def codeBlockScanGo : Nat → List Char → List (String × String)
  | 0, _ => []
  | _, [] => []
  | fuel + 1, c :: rest =>
    match fenceMatch (c :: rest) with
    | some (lang, body, rest2) => (lang, body) :: codeBlockScanGo fuel rest2
    | none => codeBlockScanGo fuel rest

/-- Scanner for the full `/g`-mode regex over a whole character list. -/
def codeBlockScan (cs : List Char) : List (String × String) :=
  codeBlockScanGo cs.length cs

/-- Models `extractCodeBlocks` (the `startIndex` field of each match is never
consumed downstream and is not modelled). -/
def extractCodeBlocks (text : String) : List CodeBlock :=
  (codeBlockScan text.toList).map fun m =>
    { language := if m.1 = "" then "text" else m.1,   -- `match[1] || 'text'`
      content := jsTrim m.2 }

/-- The tiered-output record returned by `processOutput`. -/
structure OutputData where
  summary : Option String
  full : Option String
  size : Nat
  truncated : Bool

/-- The serialised payload: strings pass through, anything else is
`JSON.stringify`-ed. -/
def outputStringOf : JVal → String
  | JVal.str s => s
  | v => v.stringify

/-- Models `processOutput`. -/
def processOutput (output : Option JVal) (isError : Bool) : OutputData :=
  match output with
  | none => { summary := none, full := none, size := 0, truncated := false }
  | some v =>
    if ¬ v.truthy then { summary := none, full := none, size := 0, truncated := false }
    else
      let outputStr := outputStringOf v
      let size := outputStr.length
      let summary := strTake outputStr SUMMARY_LENGTH
      if isError then
        { summary := some summary, full := some outputStr, size := size, truncated := false }
      else if size ≤ MAX_OUTPUT_SIZE then
        { summary := some summary, full := some outputStr, size := size, truncated := false }
      else
        { summary := some summary, full := none, size := size, truncated := true }

/-- Models `(v || '')` under string coercion, as in `classifyError`. -/
def jsOrEmpty : Option JVal → String
  | none => ""
  | some v => if v.truthy then jsCoerce v else ""

/-- Models `classifyError`. -/
def classifyError (output errorMessage : Option JVal) : String :=
  let text := jsOrEmpty output ++ jsOrEmpty errorMessage
  let lowerText := toLowerStr text
  if sIncludes lowerText "permission denied" || sIncludes lowerText "access denied" then
    "permission"
  else if sIncludes lowerText "not found" || sIncludes lowerText "no such file" then
    "not_found"
  else if sIncludes lowerText "timeout" || sIncludes lowerText "timed out" then
    "timeout"
  else if sIncludes lowerText "connection" || sIncludes lowerText "network" then
    "network"
  else if sIncludes lowerText "syntax error" || sIncludes lowerText "parse error" then
    "syntax"
  else if sIncludes lowerText "validation" || sIncludes lowerText "invalid" then
    "validation"
  else
    "unknown"

/-- Models `getPromptContext` over the pass-2 entry array (raw decoded lines, with
`none` for lines that failed to decode).  It reads the **top-level**
`content` property of the preceding raw line.  A truthy non-string value
there would make the source throw at `.slice`; such lines are outside the
modelled input space and are coerced instead. -/
def getPromptContext (entries : List (Option JVal)) (currentIndex : Nat) :
    Option String :=
  if currentIndex == 0 || entries.isEmpty then none
  else
    match entries.get? (currentIndex - 1) with
    | none => none          -- index out of range: `entries[i-1]` is undefined
    | some none => none     -- the previous line failed to decode (`null` entry)
    | some (some prevEntry) =>
      match prevEntry.getField "content" with
      | none => none
      | some v =>
        if ¬ v.truthy then none
        else some (strSliceLast (jsCoerce v) PROMPT_CONTEXT_LENGTH)

/-- An entry of the correlation map `toolCallMap` (value side). -/
structure ToolCallRec where
  name : Option JVal
  input : Option JVal
  lineIndex : Nat
  timestamp : Option JVal
  result : Option JVal
  isError : Option JVal
  resultLineIndex : Option Nat

/-- Key equality of the `Map`: JavaScript `SameValueZero`.  Primitive keys
compare by value; object and array keys compare by reference, and the
references compared here always come from different decoded blocks, so they
never match. -/
def keyEq : Option JVal → Option JVal → Bool
  | none, none => true
  | some JVal.null, some JVal.null => true
  | some (JVal.bool a), some (JVal.bool b) => a = b
  | some (JVal.num a), some (JVal.num b) => a = b
  | some (JVal.str a), some (JVal.str b) => a = b
  | _, _ => false

/-- The correlation map, in `Map` insertion order. -/
abbrev ToolCallMap := List (Option JVal × ToolCallRec)

/-- Models `Map.prototype.set`: replace the value at an existing key in place,
otherwise append. -/
def mapSet (m : ToolCallMap) (k : Option JVal) (v : ToolCallRec) : ToolCallMap :=
  match m with
  | [] => [(k, v)]
  | (k', v') :: rest =>
    if keyEq k' k then (k', v) :: rest else (k', v') :: mapSet rest k v

/-- Models `Map.prototype.get`, as a membership test plus update helper: apply `f`
to the value at key `k` when present (models `const call = map.get(id);
if (call) { mutate call }`). -/
def mapUpdate (m : ToolCallMap) (k : Option JVal) (f : ToolCallRec → ToolCallRec) :
    ToolCallMap :=
  match m with
  | [] => []
  | (k', v') :: rest =>
    if keyEq k' k then (k', f v') :: rest else (k', v') :: mapUpdate rest k f

/-- The `message?.content` array of a decoded line, or `[]` when it is not an
array (the `Array.isArray` guard). -/
def contentBlocks (entry : JVal) : List JVal :=
  match (entry.getField "message").bind fun m => m.getField "content" with
  | some (JVal.arr xs) => xs
  | _ => []

/-- Pass 1, one line (lines 232–266 of the source): register `tool_use`
blocks of assistant lines; attach `tool_result` blocks of user lines to the
already-registered invocation with the same identifier. -/
def pass1Line (m : ToolCallMap) (iLine : Nat × Option JVal) : ToolCallMap :=
  match iLine.2 with
  | none => m   -- malformed line, skipped
  | some entry =>
    let m1 :=
      if typeIs entry "assistant" then
        (contentBlocks entry).foldl (fun m block =>
          if typeIs block "tool_use" then
            mapSet m (block.getField "id")
              { name := block.getField "name", input := block.getField "input",
                lineIndex := iLine.1, timestamp := entry.getField "timestamp",
                result := none, isError := none, resultLineIndex := none }
          else m) m
      else m
    if typeIs entry "user" then
      (contentBlocks entry).foldl (fun m block =>
        if typeIs block "tool_result" then
          mapUpdate m (block.getField "tool_use_id") fun call =>
            { call with result := block.getField "content",
                        isError := block.getField "is_error",
                        resultLineIndex := some iLine.1 }
        else m) m1
    else m1

/-- The full first pass: the correlation map of a decoded line list. -/
def buildToolCallMap (lines : List (Option JVal)) : ToolCallMap :=
  lines.enum.foldl pass1Line []

/-- Models `call.isError === true`. -/
def toolCallIsError (call : ToolCallRec) : Bool :=
  match call.isError with
  | some (JVal.bool true) => true
  | _ => false

/-- The outcome expression of line 301:
`isError ? 'error' : (call.result ? 'success' : 'pending')`. -/
def toolCallOutcome (call : ToolCallRec) : String :=
  if toolCallIsError call then "error"
  else if truthyOpt call.result then "success" else "pending"

/-- Models `Object.keys(call.input || {})`. -/
def inputKeysOf : Option JVal → List String
  | some (JVal.obj fields) => fields.map fun kv => kv.1
  | some (JVal.arr xs) => (List.range xs.length).map fun i => intStr i
  | some (JVal.str s) => if s = "" then [] else (List.range s.length).map fun i => intStr i
  | _ => []   -- other primitives (and absent input) have no own keys

/-- The dedup hash of a tool call:
`hashContent(JSON.stringify({ id: toolId, input: call.input }))`. -/
def toolCallHash (toolId : Option JVal) (call : ToolCallRec) : String :=
  hashContent (stringifyObjLit [("id", toolId), ("input", call.input)])

/-- The dedup hash of a tool result:
`hashContent(JSON.stringify({ id: toolId, result: call.result }))`. -/
def toolResultHash (toolId : Option JVal) (call : ToolCallRec) : String :=
  hashContent (stringifyObjLit [("id", toolId), ("result", call.result)])

/-- The `tool_call` artifact object built at lines 291–308. -/
def toolCallArtifact (conversationId : Nat) (entriesArr : List (Option JVal))
    (toolId : Option JVal) (call : ToolCallRec) : ArtifactSpec :=
  let isError := toolCallIsError call
  let outputData := processOutput call.result isError
  { conversationId := conversationId
    entryId := none
    type := "tool_call"
    language := none
    toolName := call.name
    content := call.input.map JVal.stringify
    metadata := some [("toolUseId", toolId),
                      ("inputKeys", some (JVal.arr ((inputKeysOf call.input).map JVal.str)))]
    contentHash := toolCallHash toolId call
    outcome := some (toolCallOutcome call)
    outputSummary := outputData.summary
    outputFull := outputData.full
    outputSizeBytes := some outputData.size
    outputTruncated := outputData.truncated
    errorType := if isError then some (classifyError call.result none) else none
    promptContext := getPromptContext entriesArr call.lineIndex
    followUpAction := none }

/-- The `tool_result` artifact object built at lines 318–331. -/
def toolResultArtifact (conversationId : Nat) (toolId : Option JVal)
    (call : ToolCallRec) : ArtifactSpec :=
  let isError := toolCallIsError call
  let outputData := processOutput call.result isError
  { conversationId := conversationId
    entryId := none
    type := "tool_result"
    language := none
    toolName := call.name
    content := outputData.summary
    metadata := some [("toolUseId", toolId)]
    contentHash := toolResultHash toolId call
    outcome := some (if isError then "error" else "success")
    outputSummary := outputData.summary
    outputFull := outputData.full
    outputSizeBytes := some outputData.size
    outputTruncated := outputData.truncated
    errorType := if isError then some (classifyError call.result none) else none
    promptContext := none
    followUpAction := none }

/-- The per-invocation step of the tool-call loop (lines 280–335): dedup
check and skip count for the call, store, then the guarded independent store
of the result artifact (note: an already-present result is silently not
re-inserted, with no skip counted). -/
def processToolCall (conversationId : Nat) (entriesArr : List (Option JVal))
    (st : Db × ExtractResult) (kv : Option JVal × ToolCallRec) : Db × ExtractResult :=
  let (db, results) := st
  let (toolId, call) := kv
  let contentHash := toolCallHash toolId call
  if artifactExists db conversationId contentHash then
    (db, { results with skipped := results.skipped + 1 })
  else
    let db1 := storeArtifact db (toolCallArtifact conversationId entriesArr toolId call)
    let results1 := { results with toolCalls := results.toolCalls + 1 }
    if truthyOpt call.result then
      let resultHash := toolResultHash toolId call
      if artifactExists db1 conversationId resultHash then (db1, results1)
      else
        (storeArtifact db1 (toolResultArtifact conversationId toolId call),
         { results1 with toolResults := results1.toolResults + 1 })
    else (db1, results1)

/-- The assistant text assembled at lines 345–355: string content passes
through, array content contributes `block.text + '\n'` for each text block
(an absent `text` concatenates as the string `undefined`), any other shape
yields the empty text (the falsy-content `continue` behaves identically). -/
def assistantText (entry : JVal) : String :=
  match (entry.getField "message").bind fun m => m.getField "content" with
  | some (JVal.str s) => s
  | some (JVal.arr blocks) =>
    blocks.foldl (fun acc block =>
      if typeIs block "text" then
        acc ++ (match block.getField "text" with
                | none => "undefined"
                | some v => jsCoerce v) ++ "\n"
      else acc) ""
  | _ => ""

/-- The code-block artifact object built at lines 367–374. -/
def codeBlockArtifact (conversationId : Nat) (block : CodeBlock)
    (promptContext : Option String) : ArtifactSpec :=
  { conversationId := conversationId
    entryId := none
    type := "code_block"
    language := some block.language
    toolName := none
    content := some block.content
    metadata := none
    contentHash := hashContent block.content
    outcome := none
    outputSummary := none
    outputFull := none
    outputSizeBytes := none
    outputTruncated := false
    errorType := none
    promptContext := promptContext
    followUpAction := none }

/-- The inner loop over the fenced blocks of one assistant line
(lines 359–376). -/
def processCodeBlock (conversationId : Nat) (entriesArr : List (Option JVal))
    (i : Nat) (st : Db × ExtractResult) (block : CodeBlock) : Db × ExtractResult :=
  let (db, results) := st
  let contentHash := hashContent block.content
  if artifactExists db conversationId contentHash then
    (db, { results with skipped := results.skipped + 1 })
  else
    (storeArtifact db (codeBlockArtifact conversationId block
       (getPromptContext entriesArr i)),
     { results with codeBlocks := results.codeBlocks + 1 })

/-- The outer loop over entry lines for code-block extraction
(lines 338–377). -/
def processEntryCodeBlocks (conversationId : Nat) (entriesArr : List (Option JVal))
    (st : Db × ExtractResult) (iEntry : Nat × Option JVal) : Db × ExtractResult :=
  match iEntry.2 with
  | none => st
  | some entry =>
    if ¬ typeIs entry "assistant" then st
    else
      (extractCodeBlocks (assistantText entry)).foldl
        (processCodeBlock conversationId entriesArr iEntry.1) st

/-- The all-zero extraction counters (`results` object of line 220). -/
def zeroCounts : ExtractResult :=
  { success := true, error := none, codeBlocks := 0, toolCalls := 0,
    toolResults := 0, jsonObjects := 0, skipped := 0 }

/-- Models `processJSONLFile`.  The pass-2 entry array re-decodes the same lines and
is therefore the same `Option JVal` list the first pass consumed. -/
def processJSONLFile (fs : Fs) (filePath : String) (conversationId : Nat)
    (db : Db) : ExtractResult × Db :=
  match fs filePath with
  | none =>
    ({ zeroCounts with success := false, error := some "File not found" }, db)
  | some fm =>
    let lines := fm.lines.map fun l => l.parsed
    let toolCallMap := buildToolCallMap lines
    let entriesArr := lines
    let (db1, results1) :=
      toolCallMap.foldl (processToolCall conversationId entriesArr) (db, zeroCounts)
    let (db2, results2) :=
      lines.enum.foldl (processEntryCodeBlocks conversationId entriesArr)
        (db1, results1)
    (results2, db2)

/-- Insertion sort of entry rows by `entry_index` (stable, modelling the
`ORDER BY entry_index ASC` read). -/
def sortByEntryIndex (l : List Entry) : List Entry :=
  l.foldr insertOne []
where
  insertOne (e : Entry) : List Entry → List Entry
    | [] => [e]
    | x :: xs => if e.entryIndex ≤ x.entryIndex then e :: x :: xs
                 else x :: insertOne e xs

/-- The code-block artifact object built from a stored entry at
lines 432–440, including the `prevContent ? prevContent.slice(-200) : null`
context expression. -/
def storedCodeBlockArtifact (conversationId : Nat) (entryId : Nat)
    (block : CodeBlock) (prevContent : Option String) : ArtifactSpec :=
  { conversationId := conversationId
    entryId := some entryId
    type := "code_block"
    language := some block.language
    toolName := none
    content := some block.content
    metadata := none
    contentHash := hashContent block.content
    outcome := none
    outputSummary := none
    outputFull := none
    outputSizeBytes := none
    outputTruncated := false
    errorType := none
    promptContext := prevContent.bind fun c =>
      if c = "" then none else some (strSliceLast c PROMPT_CONTEXT_LENGTH)
    followUpAction := none }

/-- The inner loop over the fenced blocks of one stored entry
(lines 422–442). -/
def processStoredBlock (conversationId : Nat) (sorted : List Entry) (i : Nat)
    (entryId : Nat) (st : Db × ExtractResult) (block : CodeBlock) :
    Db × ExtractResult :=
  let (db, results) := st
  let contentHash := hashContent block.content
  if artifactExists db conversationId contentHash then
    (db, { results with skipped := results.skipped + 1 })
  else
    let prevContent := if i > 0 then (sorted.get? (i - 1)).map Entry.content else none
    (storeArtifact db (storedCodeBlockArtifact conversationId entryId block prevContent),
     { results with codeBlocks := results.codeBlocks + 1 })

/-- The stored-entry code-block pass of `processConversationEntries`
(lines 416–443), one entry. -/
def processStoredEntry (conversationId : Nat) (sorted : List Entry)
    (st : Db × ExtractResult) (iEntry : Nat × Entry) : Db × ExtractResult :=
  let (i, entry) := iEntry
  if entry.role ≠ "assistant" then st
  else
    (extractCodeBlocks entry.content).foldl
      (processStoredBlock conversationId sorted i entry.id) st

/-- Models `processConversationEntries`: dispatch to the richer file-based
extraction when the conversation's source is an event-log file still on
disk, otherwise scan stored entries for code blocks only.  The stored-entry
result object carries no tool-call keys (modelled as zero). -/
def processConversationEntries (fs : Fs) (conversationId : Nat) (db : Db) :
    ExtractResult × Db :=
  match db.conversations.find? fun c => c.id = conversationId with
  | none =>
    ({ zeroCounts with success := false, error := some "Conversation not found" }, db)
  | some conversation =>
    if conversation.sourceFileType = "jsonl" ∧ (fs conversation.sourceFilePath).isSome then
      processJSONLFile fs conversation.sourceFilePath conversationId db
    else
      let sorted := sortByEntryIndex
        (db.entries.filter fun e => e.conversationId = conversationId)
      let (db1, results1) :=
        sorted.enum.foldl (processStoredEntry conversationId sorted) (db, zeroCounts)
      (results1, db1)

/-! ### Spec-side definitions

Definitions in this subsection follow the wording of the specification (not
the source); they exist to be compared with the source-derived definitions
above. -/

/-- The ordered keyword rule table of the spec: "apply an ordered keyword
rule table and return the first matching category". -/
def errorRuleTable : List (List String × String) :=
  [(["permission denied", "access denied"], "permission"),
   (["not found", "no such file"], "not_found"),
   (["timeout", "timed out"], "timeout"),
   (["connection", "network"], "network"),
   (["syntax error", "parse error"], "syntax"),
   (["validation", "invalid"], "validation")]

/-- First-match evaluation of an ordered rule table, `"unknown"` when no
rule matches. -/
def firstMatchCategory (text : String) : List (List String × String) → String
  | [] => "unknown"
  | (pats, cat) :: rest =>
    if pats.any fun p => sIncludes text p then cat
    else firstMatchCategory text rest

theorem jsOrEmpty_str (s : String) : jsOrEmpty (some (JVal.str s)) = s := by
  by_cases h : s = "" <;> simp [jsOrEmpty, JVal.truthy, jsCoerce, h]

/-- Claim **C6.** The error classifier, applied to the lower-cased concatenation
of the output text and the error-message text, agrees with first-match
evaluation of the fixed ordered rule table (permission, not_found, timeout,
network, syntax, validation), returning "unknown" when no rule matches; in
particular, for inputs containing phrases of several categories the
earliest rule of this order wins. -/
theorem c6_classify_error_rule_table (output errorMessage : String) :
    classifyError (some (JVal.str output)) (some (JVal.str errorMessage)) =
      firstMatchCategory (toLowerStr (output ++ errorMessage)) errorRuleTable := by
  simp only [classifyError, jsOrEmpty_str, errorRuleTable, firstMatchCategory,
    List.any_cons, List.any_nil, Bool.or_false]

/-! ### Basic facts about serialisations and tiering -/

theorem natDigits_ne_nil (n : Nat) : natDigits n ≠ [] := by
  unfold natDigits natDigitsGo
  split <;> simp

theorem string_mk_length (l : List Char) : (String.mk l).length = l.length := rfl

theorem length_pos_of_ne_empty {s : String} (h : s ≠ "") : 0 < s.length := by
  rcases s with ⟨l⟩
  cases l with
  | nil => exact absurd rfl h
  | cons c cs => simp [string_mk_length]

theorem ne_empty_of_length_pos {s : String} (h : 0 < s.length) : s ≠ "" := by
  intro he
  subst he
  simp at h

theorem intStr_length_pos (n : Int) : 0 < (intStr n).length := by
  unfold intStr
  split
  · rw [String.length_append]
    have : 0 < "-".length := by decide
    omega
  · rw [string_mk_length]
    exact List.length_pos.mpr (natDigits_ne_nil _)

theorem stringify_length_pos (v : JVal) : 0 < v.stringify.length := by
  cases v with
  | null => decide
  | bool b => cases b <;> decide
  | num n => simpa [JVal.stringify] using intStr_length_pos n
  | str s =>
    show 0 < ("\"" ++ jsonEscape s ++ "\"").length
    rw [String.length_append, String.length_append]
    have : 0 < "\"".length := by decide
    omega
  | arr xs =>
    show 0 < ("[" ++ stringifyList xs ++ "]").length
    rw [String.length_append, String.length_append]
    have : 0 < "[".length := by decide
    omega
  | obj fields =>
    show 0 < ("\x7b" ++ stringifyFields fields ++ "\x7d").length
    rw [String.length_append, String.length_append]
    have : 0 < "\x7b".length := by decide
    omega

theorem outputStringOf_ne_empty {v : JVal} (h : v.truthy = true) :
    outputStringOf v ≠ "" := by
  cases v with
  | str s =>
    simp only [JVal.truthy, bne_iff_ne, ne_eq] at h
    simpa [outputStringOf] using h
  | null => simp [JVal.truthy] at h
  | bool b => exact ne_empty_of_length_pos (by simpa [outputStringOf] using stringify_length_pos (JVal.bool b))
  | num n => exact ne_empty_of_length_pos (by simpa [outputStringOf] using stringify_length_pos (JVal.num n))
  | arr xs => exact ne_empty_of_length_pos (by simpa [outputStringOf] using stringify_length_pos (JVal.arr xs))
  | obj fs => exact ne_empty_of_length_pos (by simpa [outputStringOf] using stringify_length_pos (JVal.obj fs))

theorem strTake_length (s : String) (n : Nat) :
    (strTake s n).length = min n s.length := by
  rcases s with ⟨l⟩
  simp [strTake, string_mk_length, List.length_take]

theorem strTake_ne_empty {s : String} {n : Nat} (hs : s ≠ "") (hn : 0 < n) :
    strTake s n ≠ "" := by
  apply ne_empty_of_length_pos
  rw [strTake_length]
  have := length_pos_of_ne_empty hs
  omega

theorem orNullStr_of_ne_empty {s : String} (h : s ≠ "") :
    orNullStr (some s) = some s := by
  simp [orNullStr, h]

/-- Claim **C2 (amended).**  For the persisted `tool_call` and `tool_result`
artifacts of an invocation: the full output is absent with the truncation
flag set if and only if the measured size exceeds 10,240 and the outcome is
not error; whenever the outcome is error **and a non-empty result payload
exists**, the full output is present verbatim; and a summary of at most the
first 500 characters is computed whenever a non-empty payload exists.
(The unamended claim fails when the outcome is error but the attached
payload is empty or absent: the tiering helper then stores no full output at
all — see the counterexample.) -/
theorem c2_output_tiering (conversationId : Nat) (entriesArr : List (Option JVal))
    (toolId : Option JVal) (call : ToolCallRec)
    (a : Artifact) (ha : a = storeRow (toolCallArtifact conversationId entriesArr toolId call))
    (r : Artifact) (hr : r = storeRow (toolResultArtifact conversationId toolId call)) :
    ((a.outputFull = none ∧ a.outputTruncated = true) ↔
       (a.outputSizeBytes.getD 0 > MAX_OUTPUT_SIZE ∧ a.outcome ≠ some "error")) ∧
    ((r.outputFull = none ∧ r.outputTruncated = true) ↔
       (r.outputSizeBytes.getD 0 > MAX_OUTPUT_SIZE ∧ r.outcome ≠ some "error")) ∧
    (∀ v, call.result = some v → v.truthy = true → a.outcome = some "error" →
       a.outputFull = some (outputStringOf v)) ∧
    (∀ v, call.result = some v → v.truthy = true → r.outcome = some "error" →
       r.outputFull = some (outputStringOf v)) ∧
    (∀ v, call.result = some v → v.truthy = true →
       a.outputSummary = some (strTake (outputStringOf v) SUMMARY_LENGTH) ∧
       r.outputSummary = some (strTake (outputStringOf v) SUMMARY_LENGTH) ∧
       (a.outputSummary.getD "").length ≤ SUMMARY_LENGTH) := by
  subst ha hr
  cases hres : call.result with
  | none =>
    simp [storeRow, toolCallArtifact, toolResultArtifact, processOutput,
      toolCallOutcome, truthyOpt, orNullStr, hres, MAX_OUTPUT_SIZE]
  | some v =>
    cases htr : v.truthy with
    | false =>
      simp [storeRow, toolCallArtifact, toolResultArtifact, processOutput,
        toolCallOutcome, truthyOpt, orNullStr, hres, htr, MAX_OUTPUT_SIZE]
    | true =>
      have hne := outputStringOf_ne_empty htr
      have hsne : strTake (outputStringOf v) SUMMARY_LENGTH ≠ "" :=
        strTake_ne_empty hne (by norm_num [SUMMARY_LENGTH])
      have hlenpos := length_pos_of_ne_empty hne
      have hsumlen : (strTake (outputStringOf v) SUMMARY_LENGTH).length ≤ SUMMARY_LENGTH := by
        rw [strTake_length]
        omega
      have hnz : (outputStringOf v).length ≠ 0 := by omega
      cases hie : toolCallIsError call with
      | true =>
        simp [storeRow, toolCallArtifact, toolResultArtifact, processOutput,
          toolCallOutcome, truthyOpt, orNullStr, hres, htr, hie, hne, hsne,
          hsumlen, hnz, MAX_OUTPUT_SIZE]
      | false =>
        by_cases hsz : (outputStringOf v).length ≤ 10240
        · simp [storeRow, toolCallArtifact, toolResultArtifact, processOutput,
            toolCallOutcome, truthyOpt, orNullStr, hres, htr, hie, hne, hsne,
            hsumlen, hsz, hnz, MAX_OUTPUT_SIZE]
        · simp [storeRow, toolCallArtifact, toolResultArtifact, processOutput,
            toolCallOutcome, truthyOpt, orNullStr, hres, htr, hie, hne, hsne,
            hsumlen, hsz, hnz, MAX_OUTPUT_SIZE]
          omega

/-! ### Fold machinery for the extraction passes -/

theorem storeRow_type (a : ArtifactSpec) : (storeRow a).artifactType = a.type := rfl

theorem storeRow_cid (a : ArtifactSpec) : (storeRow a).conversationId = a.conversationId := rfl

theorem storeRow_hash (a : ArtifactSpec) : (storeRow a).contentHash = a.contentHash := rfl

/-- One tool-call step either skips, stores the call artifact, or stores the
call artifact followed by the result artifact. -/
theorem processToolCall_artifacts (cid : Nat) (ea : List (Option JVal))
    (db : Db) (res : ExtractResult) (toolId : Option JVal) (call : ToolCallRec) :
    ((processToolCall cid ea (db, res) (toolId, call)).1.artifacts = db.artifacts) ∨
    ((processToolCall cid ea (db, res) (toolId, call)).1.artifacts =
       db.artifacts ++ [storeRow (toolCallArtifact cid ea toolId call)]) ∨
    ((processToolCall cid ea (db, res) (toolId, call)).1.artifacts =
       db.artifacts ++ [storeRow (toolCallArtifact cid ea toolId call),
                        storeRow (toolResultArtifact cid toolId call)]) := by
  unfold processToolCall
  dsimp only
  split
  · left; rfl
  · split
    · split
      · right; left; rfl
      · right; right; simp [storeArtifact]
    · right; left; rfl

/-- The tool-call fold only appends artifacts. -/
theorem toolFold_artifacts_prefix (cid : Nat) (ea : List (Option JVal)) :
    ∀ (l : ToolCallMap) (db : Db) (res : ExtractResult),
      ∃ added, (l.foldl (processToolCall cid ea) (db, res)).1.artifacts =
        db.artifacts ++ added := by
  intro l
  induction l with
  | nil => intro db res; exact ⟨[], by simp⟩
  | cons kv rest ih =>
    intro db res
    rcases kv with ⟨toolId, call⟩
    rcases hstep : processToolCall cid ea (db, res) (toolId, call) with ⟨db', res'⟩
    rcases ih db' res' with ⟨added, hadded⟩
    rcases processToolCall_artifacts cid ea db res toolId call with h | h | h <;>
      rw [hstep] at h <;> dsimp only at h
    · exact ⟨added, by simp [hstep, hadded, h]⟩
    · exact ⟨[storeRow (toolCallArtifact cid ea toolId call)] ++ added,
        by simp [hstep, hadded, h]⟩
    · exact ⟨[storeRow (toolCallArtifact cid ea toolId call),
              storeRow (toolResultArtifact cid toolId call)] ++ added,
        by simp [hstep, hadded, h]⟩

/-- Provenance of artifacts added by the tool-call fold. -/
theorem mem_toolFold_artifacts (cid : Nat) (ea : List (Option JVal)) :
    ∀ (l : ToolCallMap) (db : Db) (res : ExtractResult) (x : Artifact),
      x ∈ (l.foldl (processToolCall cid ea) (db, res)).1.artifacts →
      x ∈ db.artifacts ∨
      ∃ kv ∈ l, x = storeRow (toolCallArtifact cid ea kv.1 kv.2) ∨
                x = storeRow (toolResultArtifact cid kv.1 kv.2) := by
  intro l
  induction l with
  | nil => intro db res x hx; exact Or.inl (by simpa using hx)
  | cons kv rest ih =>
    intro db res x hx
    rcases kv with ⟨toolId, call⟩
    rcases hstep : processToolCall cid ea (db, res) (toolId, call) with ⟨db', res'⟩
    rw [List.foldl_cons, hstep] at hx
    rcases ih db' res' x hx with hx' | ⟨kv', hkv', hor⟩
    · rcases processToolCall_artifacts cid ea db res toolId call with h | h | h <;>
        rw [hstep] at h <;> rw [h] at hx'
      · exact Or.inl hx'
      · rcases List.mem_append.mp hx' with h1 | h1
        · exact Or.inl h1
        · refine Or.inr ⟨(toolId, call), List.mem_cons_self _ _, ?_⟩
          simp at h1
          exact Or.inl h1
      · rcases List.mem_append.mp hx' with h1 | h1
        · exact Or.inl h1
        · refine Or.inr ⟨(toolId, call), List.mem_cons_self _ _, ?_⟩
          simpa using h1
    · exact Or.inr ⟨kv', List.mem_cons_of_mem _ hkv', hor⟩

/-- One code-block step either skips or stores a `code_block` artifact. -/
theorem processCodeBlock_artifacts (cid : Nat) (ea : List (Option JVal)) (i : Nat)
    (db : Db) (res : ExtractResult) (block : CodeBlock) :
    ((processCodeBlock cid ea i (db, res) block).1.artifacts = db.artifacts) ∨
    ((processCodeBlock cid ea i (db, res) block).1.artifacts =
       db.artifacts ++ [storeRow (codeBlockArtifact cid block (getPromptContext ea i))]) := by
  unfold processCodeBlock
  dsimp only
  split
  · left; rfl
  · right; rfl

/-- The inner code-block fold only appends `code_block` artifacts. -/
theorem mem_blockFold_artifacts (cid : Nat) (ea : List (Option JVal)) (i : Nat) :
    ∀ (blocks : List CodeBlock) (db : Db) (res : ExtractResult) (x : Artifact),
      x ∈ (blocks.foldl (processCodeBlock cid ea i) (db, res)).1.artifacts →
      x ∈ db.artifacts ∨ x.artifactType = "code_block" := by
  intro blocks
  induction blocks with
  | nil => intro db res x hx; exact Or.inl (by simpa using hx)
  | cons b rest ih =>
    intro db res x hx
    rcases hstep : processCodeBlock cid ea i (db, res) b with ⟨db', res'⟩
    rw [List.foldl_cons, hstep] at hx
    rcases ih db' res' x hx with hx' | ht
    · rcases processCodeBlock_artifacts cid ea i db res b with h | h <;>
        rw [hstep] at h <;> rw [h] at hx'
      · exact Or.inl hx'
      · rcases List.mem_append.mp hx' with h1 | h1
        · exact Or.inl h1
        · simp at h1
          subst h1
          exact Or.inr rfl
    · exact Or.inr ht

/-- The inner code-block fold only appends artifacts. -/
theorem blockFold_artifacts_prefix (cid : Nat) (ea : List (Option JVal)) (i : Nat) :
    ∀ (blocks : List CodeBlock) (db : Db) (res : ExtractResult),
      ∃ added, (blocks.foldl (processCodeBlock cid ea i) (db, res)).1.artifacts =
        db.artifacts ++ added := by
  intro blocks
  induction blocks with
  | nil => intro db res; exact ⟨[], by simp⟩
  | cons b rest ih =>
    intro db res
    rcases hstep : processCodeBlock cid ea i (db, res) b with ⟨db', res'⟩
    rcases ih db' res' with ⟨added, hadded⟩
    rcases processCodeBlock_artifacts cid ea i db res b with h | h <;>
      rw [hstep] at h <;> dsimp only at h
    · exact ⟨added, by simp [hstep, hadded, h]⟩
    · exact ⟨[storeRow (codeBlockArtifact cid b (getPromptContext ea i))] ++ added,
        by simp [hstep, hadded, h]⟩

/-- One outer code-block step only appends `code_block` artifacts. -/
theorem mem_entryCodeBlocks_artifacts (cid : Nat) (ea : List (Option JVal))
    (db : Db) (res : ExtractResult) (iEntry : Nat × Option JVal) (x : Artifact)
    (hx : x ∈ (processEntryCodeBlocks cid ea (db, res) iEntry).1.artifacts) :
    x ∈ db.artifacts ∨ x.artifactType = "code_block" := by
  unfold processEntryCodeBlocks at hx
  rcases iEntry with ⟨i, pj⟩
  rcases pj with _ | entry
  · exact Or.inl hx
  · dsimp only at hx
    split at hx
    · exact Or.inl hx
    · exact mem_blockFold_artifacts cid ea i _ db res x hx

/-- One outer code-block step only appends artifacts. -/
theorem entryCodeBlocks_artifacts_prefix (cid : Nat) (ea : List (Option JVal))
    (db : Db) (res : ExtractResult) (iEntry : Nat × Option JVal) :
    ∃ added, (processEntryCodeBlocks cid ea (db, res) iEntry).1.artifacts =
      db.artifacts ++ added := by
  unfold processEntryCodeBlocks
  rcases iEntry with ⟨i, pj⟩
  rcases pj with _ | entry
  · exact ⟨[], by simp⟩
  · dsimp only
    split
    · exact ⟨[], by simp⟩
    · exact blockFold_artifacts_prefix cid ea i _ db res

/-- The outer code-block fold only appends `code_block` artifacts. -/
theorem mem_codeFold_artifacts (cid : Nat) (ea : List (Option JVal)) :
    ∀ (l : List (Nat × Option JVal)) (db : Db) (res : ExtractResult) (x : Artifact),
      x ∈ (l.foldl (processEntryCodeBlocks cid ea) (db, res)).1.artifacts →
      x ∈ db.artifacts ∨ x.artifactType = "code_block" := by
  intro l
  induction l with
  | nil => intro db res x hx; exact Or.inl (by simpa using hx)
  | cons ie rest ih =>
    intro db res x hx
    rcases hstep : processEntryCodeBlocks cid ea (db, res) ie with ⟨db', res'⟩
    rw [List.foldl_cons, hstep] at hx
    rcases ih db' res' x hx with hx' | ht
    · have := mem_entryCodeBlocks_artifacts cid ea db res ie x (by rw [hstep]; exact hx')
      exact this
    · exact Or.inr ht

/-- The outer code-block fold only appends artifacts. -/
theorem codeFold_artifacts_prefix (cid : Nat) (ea : List (Option JVal)) :
    ∀ (l : List (Nat × Option JVal)) (db : Db) (res : ExtractResult),
      ∃ added, (l.foldl (processEntryCodeBlocks cid ea) (db, res)).1.artifacts =
        db.artifacts ++ added := by
  intro l
  induction l with
  | nil => intro db res; exact ⟨[], by simp⟩
  | cons ie rest ih =>
    intro db res
    rcases hstep : processEntryCodeBlocks cid ea (db, res) ie with ⟨db', res'⟩
    rcases ih db' res' with ⟨added, hadded⟩
    rcases entryCodeBlocks_artifacts_prefix cid ea db res ie with ⟨added0, h0⟩
    rw [hstep] at h0
    dsimp only at h0
    exact ⟨added0 ++ added, by simp [hstep, hadded, h0]⟩

/-- Provenance of every artifact present after `processJSONLFile`: it was
already stored, or it is the `tool_call`/`tool_result` row of a correlated
invocation, or it is a `code_block` row. -/
theorem mem_processJSONLFile_artifacts (fs : Fs) (filePath : String) (cid : Nat)
    (db : Db) (fm : FileModel) (hfs : fs filePath = some fm) (x : Artifact)
    (hx : x ∈ (processJSONLFile fs filePath cid db).2.artifacts) :
    x ∈ db.artifacts ∨
    (∃ kv ∈ buildToolCallMap (fm.lines.map fun l => l.parsed),
       x = storeRow (toolCallArtifact cid (fm.lines.map fun l => l.parsed) kv.1 kv.2) ∨
       x = storeRow (toolResultArtifact cid kv.1 kv.2)) ∨
    x.artifactType = "code_block" := by
  unfold processJSONLFile at hx
  rw [hfs] at hx
  dsimp only at hx
  rcases hstep : (buildToolCallMap (fm.lines.map fun l => l.parsed)).foldl
      (processToolCall cid (fm.lines.map fun l => l.parsed)) (db, zeroCounts)
    with ⟨db1, res1⟩
  rw [hstep] at hx
  have h2 := mem_codeFold_artifacts cid (fm.lines.map fun l => l.parsed)
    (fm.lines.map fun l => l.parsed).enum db1 res1 x (by exact hx)
  rcases h2 with h2 | h2
  · have h1 := mem_toolFold_artifacts cid (fm.lines.map fun l => l.parsed)
      (buildToolCallMap (fm.lines.map fun l => l.parsed)) db zeroCounts x
      (by rw [hstep]; exact h2)
    rcases h1 with h1 | ⟨kv, hkv, hor⟩
    · exact Or.inl h1
    · exact Or.inr (Or.inl ⟨kv, hkv, hor⟩)
  · exact Or.inr (Or.inr h2)

/-! ### Concrete test inputs

Small event-log files used by counterexamples and witnesses.  Each is the
decoded form of a two-line file: an assistant line invoking tool `t1`
(`Read`), then a user line carrying the matching `tool_result` block in one
of several variants. -/

/-- Assistant line: `tool_use` block with id `t1`, name `Read`. -/
def exToolUseLine : JVal :=
  JVal.obj [("type", JVal.str "assistant"),
    ("message", JVal.obj [("role", JVal.str "assistant"),
      ("content", JVal.arr [JVal.obj [("type", JVal.str "tool_use"),
        ("id", JVal.str "t1"), ("name", JVal.str "Read"),
        ("input", JVal.obj [("file_path", JVal.str "/tmp/a.txt")])]])])]

/-- User line: successful `tool_result` for `t1` with non-empty content. -/
def exResultOkLine : JVal :=
  JVal.obj [("type", JVal.str "user"),
    ("message", JVal.obj [("role", JVal.str "user"),
      ("content", JVal.arr [JVal.obj [("type", JVal.str "tool_result"),
        ("tool_use_id", JVal.str "t1"),
        ("content", JVal.str "file contents here")]])])]

/-- User line: `tool_result` for `t1` with **empty** content and no error
flag. -/
def exResultEmptyLine : JVal :=
  JVal.obj [("type", JVal.str "user"),
    ("message", JVal.obj [("role", JVal.str "user"),
      ("content", JVal.arr [JVal.obj [("type", JVal.str "tool_result"),
        ("tool_use_id", JVal.str "t1"), ("content", JVal.str "")]])])]

/-- User line: `tool_result` for `t1` with empty content and `is_error:
true`. -/
def exResultEmptyErrLine : JVal :=
  JVal.obj [("type", JVal.str "user"),
    ("message", JVal.obj [("role", JVal.str "user"),
      ("content", JVal.arr [JVal.obj [("type", JVal.str "tool_result"),
        ("tool_use_id", JVal.str "t1"), ("content", JVal.str ""),
        ("is_error", JVal.bool true)]])])]

/-- A two-line event-log file from decoded lines. -/
def exFile (l0 l1 : JVal) : FileModel :=
  { text := "", lines := [{ raw := "raw0", parsed := some l0 },
                          { raw := "raw1", parsed := some l1 }] }

/-- A file system holding exactly one file. -/
def exFsOf (path : String) (fm : FileModel) : Fs :=
  fun p => if p = path then some fm else none

/-- Scenario A (spec §8): invocation `t1` then its successful result. -/
def exScenarioAFs : Fs := exFsOf "/logs/a.jsonl" (exFile exToolUseLine exResultOkLine)

/-- C1 counterexample source: invocation `t1` then a matching result with
empty content and no error flag. -/
def exEmptyResultFs : Fs := exFsOf "/logs/c.jsonl" (exFile exToolUseLine exResultEmptyLine)

/-- C2 counterexample source: invocation `t1` then a matching result with
empty content and the error flag set. -/
def exEmptyErrFs : Fs := exFsOf "/logs/d.jsonl" (exFile exToolUseLine exResultEmptyErrLine)

/-! ### C1: tool-call outcome -/

/-- Claim **C1 (amended).** Every `tool_call` artifact newly persisted by
event-log extraction is the stored row of a correlated invocation of the
two-pass scan, and its outcome is: `error` iff the error flag attached to
the invocation is strictly boolean `true`; `success` iff there is no such
error flag and the attached result payload is truthy (present and
non-empty); `pending` otherwise — i.e. also when a matching result block
**was** found but carried an empty or absent payload, which is where the
unamended claim fails (see the counterexample). -/
theorem c1_tool_call_outcome (fs : Fs) (filePath : String) (cid : Nat) (db : Db)
    (fm : FileModel) (hfs : fs filePath = some fm)
    (a : Artifact) (hmem : a ∈ (processJSONLFile fs filePath cid db).2.artifacts)
    (hnew : a ∉ db.artifacts) (htype : a.artifactType = "tool_call") :
    ∃ toolId call,
      (toolId, call) ∈ buildToolCallMap (fm.lines.map fun l => l.parsed) ∧
      a = storeRow (toolCallArtifact cid (fm.lines.map fun l => l.parsed) toolId call) ∧
      (a.outcome = some "error" ↔ toolCallIsError call = true) ∧
      (a.outcome = some "success" ↔
        (toolCallIsError call = false ∧ truthyOpt call.result = true)) ∧
      (a.outcome = some "pending" ↔
        (toolCallIsError call = false ∧ truthyOpt call.result = false)) := by
  rcases mem_processJSONLFile_artifacts fs filePath cid db fm hfs a hmem
    with h | ⟨kv, hkv, hor | hor⟩ | h
  · exact absurd h hnew
  · refine ⟨kv.1, kv.2, hkv, hor, ?_, ?_, ?_⟩ <;>
    · subst hor
      cases hie : toolCallIsError kv.2 with
      | true =>
        simp [storeRow, toolCallArtifact, toolCallOutcome, orNullStr, hie]
      | false =>
        cases htr : truthyOpt kv.2.result with
        | true => simp [storeRow, toolCallArtifact, toolCallOutcome, orNullStr, hie, htr]
        | false => simp [storeRow, toolCallArtifact, toolCallOutcome, orNullStr, hie, htr]
  · rw [hor] at htype
    simp [storeRow, toolResultArtifact] at htype
  · rw [htype] at h
    simp at h

/-- Claim **C1 witness.** The amended characterisation applied to scenario A: the
stored `tool_call` artifact is correlated to `t1` and its outcome is
`success`. -/
theorem c1_tool_call_outcome_witness :
    ∃ toolId call,
      (toolId, call) ∈ buildToolCallMap
        (((exFile exToolUseLine exResultOkLine).lines).map fun l => l.parsed) ∧
      ((processJSONLFile exScenarioAFs "/logs/a.jsonl" 7 Db.empty).2.artifacts.headD
          (storeRow (codeBlockArtifact 0 ⟨"", ""⟩ none)))
        = storeRow (toolCallArtifact 7
            (((exFile exToolUseLine exResultOkLine).lines).map fun l => l.parsed)
            toolId call) ∧
      (((processJSONLFile exScenarioAFs "/logs/a.jsonl" 7 Db.empty).2.artifacts.headD
          (storeRow (codeBlockArtifact 0 ⟨"", ""⟩ none))).outcome = some "error" ↔
        toolCallIsError call = true) ∧
      (((processJSONLFile exScenarioAFs "/logs/a.jsonl" 7 Db.empty).2.artifacts.headD
          (storeRow (codeBlockArtifact 0 ⟨"", ""⟩ none))).outcome = some "success" ↔
        (toolCallIsError call = false ∧ truthyOpt call.result = true)) ∧
      (((processJSONLFile exScenarioAFs "/logs/a.jsonl" 7 Db.empty).2.artifacts.headD
          (storeRow (codeBlockArtifact 0 ⟨"", ""⟩ none))).outcome = some "pending" ↔
        (toolCallIsError call = false ∧ truthyOpt call.result = false)) :=
  c1_tool_call_outcome exScenarioAFs "/logs/a.jsonl" 7 Db.empty
    (exFile exToolUseLine exResultOkLine) rfl _ (by decide) (by decide) (by decide)

/-- Claim **C1 counterexample.** A matching `tool_result` block for `t1` exists in
the source without an error flag (the claim as stated demands outcome
`success`), yet the persisted `tool_call` artifact has outcome `pending`,
because the attached payload is the empty string, which is falsy. -/
theorem c1_counterexample :
    ((processJSONLFile exEmptyResultFs "/logs/c.jsonl" 1 Db.empty).2.artifacts.map
       fun a => (a.artifactType, a.outcome)) = [("tool_call", some "pending")] ∧
    contentBlocks exResultEmptyLine =
      [JVal.obj [("type", JVal.str "tool_result"),
        ("tool_use_id", JVal.str "t1"), ("content", JVal.str "")]] ∧
    (JVal.obj [("type", JVal.str "tool_result"),
        ("tool_use_id", JVal.str "t1"),
        ("content", JVal.str "")]).getField "is_error" = none := by
  refine ⟨by decide, rfl, rfl⟩

/-! ### C2: counterexample and witness -/

/-- Claim **C2 counterexample.** A result with the error flag set but an empty
payload: the persisted `tool_call` artifact has outcome `error`, yet its
full output (and even its summary and size) is NULL — the claim's "for
outcome = error, `outputFull` is always present" fails. -/
theorem c2_counterexample :
    ((processJSONLFile exEmptyErrFs "/logs/d.jsonl" 1 Db.empty).2.artifacts.map
       fun a => (a.artifactType, a.outcome, a.outputFull, a.outputSummary)) =
      [("tool_call", some "error", none, none)] := by
  decide

/-- A correlated invocation whose attached result is the non-empty string
`boom` with the error flag strictly `true`. -/
def exErrCall : ToolCallRec :=
  { name := some (JVal.str "Bash")
    input := some (JVal.obj [("command", JVal.str "ls")])
    lineIndex := 0
    timestamp := none
    result := some (JVal.str "boom")
    isError := some (JVal.bool true)
    resultLineIndex := some 1 }

/-- Claim **C2 witness.** The amended tiering facts at a concrete erroring call
with payload `boom`: full output retained verbatim on both artifacts and the
bounded summary present. -/
theorem c2_output_tiering_witness :
    (storeRow (toolCallArtifact 1 [] (some (JVal.str "t1")) exErrCall)).outputFull
        = some "boom" ∧
    (storeRow (toolResultArtifact 1 (some (JVal.str "t1")) exErrCall)).outputSummary
        = some (strTake (outputStringOf (JVal.str "boom")) SUMMARY_LENGTH) ∧
    ((storeRow (toolCallArtifact 1 [] (some (JVal.str "t1")) exErrCall)).outputSummary.getD
        "").length ≤ SUMMARY_LENGTH := by
  have h := c2_output_tiering 1 [] (some (JVal.str "t1")) exErrCall _ rfl _ rfl
  exact ⟨h.2.2.1 (JVal.str "boom") rfl (by decide) (by decide),
         (h.2.2.2.2 (JVal.str "boom") rfl (by decide)).2.1,
         (h.2.2.2.2 (JVal.str "boom") rfl (by decide)).2.2⟩

/-! ### C10: no json_object artifacts -/

theorem processToolCall_jsonObjects (cid : Nat) (ea : List (Option JVal))
    (db : Db) (res : ExtractResult) (kv : Option JVal × ToolCallRec) :
    (processToolCall cid ea (db, res) kv).2.jsonObjects = res.jsonObjects := by
  rcases kv with ⟨toolId, call⟩
  unfold processToolCall
  dsimp only
  split
  · rfl
  · split
    · split
      · rfl
      · rfl
    · rfl

theorem toolFold_jsonObjects (cid : Nat) (ea : List (Option JVal)) :
    ∀ (l : ToolCallMap) (db : Db) (res : ExtractResult),
      (l.foldl (processToolCall cid ea) (db, res)).2.jsonObjects = res.jsonObjects := by
  intro l
  induction l with
  | nil => intro db res; rfl
  | cons kv rest ih =>
    intro db res
    rcases hstep : processToolCall cid ea (db, res) kv with ⟨db', res'⟩
    rw [List.foldl_cons, hstep, ih db' res']
    have := processToolCall_jsonObjects cid ea db res kv
    rw [hstep] at this
    exact this

theorem processCodeBlock_jsonObjects (cid : Nat) (ea : List (Option JVal)) (i : Nat)
    (db : Db) (res : ExtractResult) (block : CodeBlock) :
    (processCodeBlock cid ea i (db, res) block).2.jsonObjects = res.jsonObjects := by
  unfold processCodeBlock
  dsimp only
  split
  · rfl
  · rfl

theorem blockFold_jsonObjects (cid : Nat) (ea : List (Option JVal)) (i : Nat) :
    ∀ (blocks : List CodeBlock) (db : Db) (res : ExtractResult),
      (blocks.foldl (processCodeBlock cid ea i) (db, res)).2.jsonObjects
        = res.jsonObjects := by
  intro blocks
  induction blocks with
  | nil => intro db res; rfl
  | cons b rest ih =>
    intro db res
    rcases hstep : processCodeBlock cid ea i (db, res) b with ⟨db', res'⟩
    rw [List.foldl_cons, hstep, ih db' res']
    have := processCodeBlock_jsonObjects cid ea i db res b
    rw [hstep] at this
    exact this

theorem processEntryCodeBlocks_jsonObjects (cid : Nat) (ea : List (Option JVal))
    (db : Db) (res : ExtractResult) (iEntry : Nat × Option JVal) :
    (processEntryCodeBlocks cid ea (db, res) iEntry).2.jsonObjects
      = res.jsonObjects := by
  unfold processEntryCodeBlocks
  rcases iEntry with ⟨i, pj⟩
  rcases pj with _ | entry
  · rfl
  · dsimp only
    split
    · rfl
    · exact blockFold_jsonObjects cid ea i _ db res

theorem codeFold_jsonObjects (cid : Nat) (ea : List (Option JVal)) :
    ∀ (l : List (Nat × Option JVal)) (db : Db) (res : ExtractResult),
      (l.foldl (processEntryCodeBlocks cid ea) (db, res)).2.jsonObjects
        = res.jsonObjects := by
  intro l
  induction l with
  | nil => intro db res; rfl
  | cons ie rest ih =>
    intro db res
    rcases hstep : processEntryCodeBlocks cid ea (db, res) ie with ⟨db', res'⟩
    rw [List.foldl_cons, hstep, ih db' res']
    have := processEntryCodeBlocks_jsonObjects cid ea db res ie
    rw [hstep] at this
    exact this

/-- The reported `jsonObjects` count of `processJSONLFile` is always zero. -/
theorem processJSONLFile_jsonObjects (fs : Fs) (filePath : String) (cid : Nat)
    (db : Db) : (processJSONLFile fs filePath cid db).1.jsonObjects = 0 := by
  unfold processJSONLFile
  cases hfs : fs filePath with
  | none => rfl
  | some fm =>
    dsimp only
    rcases hstep : (buildToolCallMap (fm.lines.map fun l => l.parsed)).foldl
        (processToolCall cid (fm.lines.map fun l => l.parsed)) (db, zeroCounts)
      with ⟨db1, res1⟩
    rw [hstep]
    have h1 := toolFold_jsonObjects cid (fm.lines.map fun l => l.parsed)
      (buildToolCallMap (fm.lines.map fun l => l.parsed)) db zeroCounts
    rw [hstep] at h1
    dsimp only at h1
    have h2 := codeFold_jsonObjects cid (fm.lines.map fun l => l.parsed)
      (fm.lines.map fun l => l.parsed).enum db1 res1
    rw [h2, h1]
    rfl

theorem processStoredBlock_jsonObjects (cid : Nat) (sorted : List Entry) (i eid : Nat)
    (db : Db) (res : ExtractResult) (block : CodeBlock) :
    (processStoredBlock cid sorted i eid (db, res) block).2.jsonObjects
      = res.jsonObjects := by
  unfold processStoredBlock
  dsimp only
  split
  · rfl
  · rfl

/-- One stored-entry block step either skips or stores a `code_block` row. -/
theorem processStoredBlock_artifacts (cid : Nat) (sorted : List Entry) (i eid : Nat)
    (db : Db) (res : ExtractResult) (block : CodeBlock) :
    ((processStoredBlock cid sorted i eid (db, res) block).1.artifacts = db.artifacts) ∨
    ((processStoredBlock cid sorted i eid (db, res) block).1.artifacts =
       db.artifacts ++ [storeRow (storedCodeBlockArtifact cid eid block
         (if i > 0 then (sorted.get? (i - 1)).map Entry.content else none))]) := by
  unfold processStoredBlock
  dsimp only
  split
  · left; rfl
  · right; rfl

theorem storedBlockFold_jsonObjects (cid : Nat) (sorted : List Entry) (i eid : Nat) :
    ∀ (blocks : List CodeBlock) (db : Db) (res : ExtractResult),
      (blocks.foldl (processStoredBlock cid sorted i eid) (db, res)).2.jsonObjects
        = res.jsonObjects := by
  intro blocks
  induction blocks with
  | nil => intro db res; rfl
  | cons b rest ih =>
    intro db res
    rcases hstep : processStoredBlock cid sorted i eid (db, res) b with ⟨db', res'⟩
    rw [List.foldl_cons, hstep, ih db' res']
    have := processStoredBlock_jsonObjects cid sorted i eid db res b
    rw [hstep] at this
    exact this

theorem mem_storedBlockFold_artifacts (cid : Nat) (sorted : List Entry) (i eid : Nat) :
    ∀ (blocks : List CodeBlock) (db : Db) (res : ExtractResult) (x : Artifact),
      x ∈ (blocks.foldl (processStoredBlock cid sorted i eid) (db, res)).1.artifacts →
      x ∈ db.artifacts ∨ x.artifactType = "code_block" := by
  intro blocks
  induction blocks with
  | nil => intro db res x hx; exact Or.inl (by simpa using hx)
  | cons b rest ih =>
    intro db res x hx
    rcases hstep : processStoredBlock cid sorted i eid (db, res) b with ⟨db', res'⟩
    rw [List.foldl_cons, hstep] at hx
    rcases ih db' res' x hx with hx' | ht
    · rcases processStoredBlock_artifacts cid sorted i eid db res b with h | h <;>
        rw [hstep] at h <;> dsimp only at h <;> rw [h] at hx'
      · exact Or.inl hx'
      · rcases List.mem_append.mp hx' with h1 | h1
        · exact Or.inl h1
        · simp at h1
          subst h1
          exact Or.inr rfl
    · exact Or.inr ht

theorem processStoredEntry_jsonObjects (cid : Nat) (sorted : List Entry)
    (db : Db) (res : ExtractResult) (iEntry : Nat × Entry) :
    (processStoredEntry cid sorted (db, res) iEntry).2.jsonObjects
      = res.jsonObjects := by
  unfold processStoredEntry
  rcases iEntry with ⟨i, entry⟩
  dsimp only
  split
  · rfl
  · exact storedBlockFold_jsonObjects cid sorted i entry.id _ db res

theorem mem_processStoredEntry_artifacts (cid : Nat) (sorted : List Entry)
    (db : Db) (res : ExtractResult) (iEntry : Nat × Entry) (x : Artifact)
    (hx : x ∈ (processStoredEntry cid sorted (db, res) iEntry).1.artifacts) :
    x ∈ db.artifacts ∨ x.artifactType = "code_block" := by
  unfold processStoredEntry at hx
  rcases iEntry with ⟨i, entry⟩
  dsimp only at hx
  split at hx
  · exact Or.inl hx
  · exact mem_storedBlockFold_artifacts cid sorted i entry.id _ db res x hx

theorem storedFold_jsonObjects (cid : Nat) (sorted : List Entry) :
    ∀ (l : List (Nat × Entry)) (db : Db) (res : ExtractResult),
      (l.foldl (processStoredEntry cid sorted) (db, res)).2.jsonObjects
        = res.jsonObjects := by
  intro l
  induction l with
  | nil => intro db res; rfl
  | cons ie rest ih =>
    intro db res
    rcases hstep : processStoredEntry cid sorted (db, res) ie with ⟨db', res'⟩
    rw [List.foldl_cons, hstep, ih db' res']
    have := processStoredEntry_jsonObjects cid sorted db res ie
    rw [hstep] at this
    exact this

theorem mem_storedFold_artifacts (cid : Nat) (sorted : List Entry) :
    ∀ (l : List (Nat × Entry)) (db : Db) (res : ExtractResult) (x : Artifact),
      x ∈ (l.foldl (processStoredEntry cid sorted) (db, res)).1.artifacts →
      x ∈ db.artifacts ∨ x.artifactType = "code_block" := by
  intro l
  induction l with
  | nil => intro db res x hx; exact Or.inl (by simpa using hx)
  | cons ie rest ih =>
    intro db res x hx
    rcases hstep : processStoredEntry cid sorted (db, res) ie with ⟨db', res'⟩
    rw [List.foldl_cons, hstep] at hx
    rcases ih db' res' x hx with hx' | ht
    · exact mem_processStoredEntry_artifacts cid sorted db res ie x (by rw [hstep]; exact hx')
    · exact Or.inr ht

/-- Artifacts present after `processJSONLFile` that were not already stored
have one of the three extraction types. -/
theorem mem_processJSONLFile_types (fs : Fs) (filePath : String) (cid : Nat)
    (db : Db) (x : Artifact)
    (hx : x ∈ (processJSONLFile fs filePath cid db).2.artifacts) :
    x ∈ db.artifacts ∨ x.artifactType = "tool_call" ∨
    x.artifactType = "tool_result" ∨ x.artifactType = "code_block" := by
  cases hfs : fs filePath with
  | none =>
    unfold processJSONLFile at hx
    rw [hfs] at hx
    exact Or.inl hx
  | some fm =>
    rcases mem_processJSONLFile_artifacts fs filePath cid db fm hfs x hx
      with h | ⟨kv, _, hor | hor⟩ | h
    · exact Or.inl h
    · subst hor
      exact Or.inr (Or.inl rfl)
    · subst hor
      exact Or.inr (Or.inr (Or.inl rfl))
    · exact Or.inr (Or.inr (Or.inr h))

/-- Claim **C10.** Extraction never creates a `json_object` artifact: on every
input and through both extraction paths (`processJSONLFile` and
`processConversationEntries`), the reported `jsonObjects` count is zero and
every artifact either pre-existed or has type `tool_call`, `tool_result` or
`code_block` — the JSON-object scanner contributes nothing. -/
theorem c10_no_json_object_artifacts (fs : Fs) (filePath : String) (cid : Nat)
    (db : Db) :
    (processJSONLFile fs filePath cid db).1.jsonObjects = 0 ∧
    (processConversationEntries fs cid db).1.jsonObjects = 0 ∧
    (∀ x, x ∈ (processJSONLFile fs filePath cid db).2.artifacts →
       x ∈ db.artifacts ∨ x.artifactType ≠ "json_object") ∧
    (∀ x, x ∈ (processConversationEntries fs cid db).2.artifacts →
       x ∈ db.artifacts ∨ x.artifactType ≠ "json_object") := by
  have hJ : ∀ (fp : String), (processJSONLFile fs fp cid db).1.jsonObjects = 0 :=
    fun fp => processJSONLFile_jsonObjects fs fp cid db
  have hJmem : ∀ (fp : String) (x : Artifact),
      x ∈ (processJSONLFile fs fp cid db).2.artifacts →
      x ∈ db.artifacts ∨ x.artifactType ≠ "json_object" := by
    intro fp x hx
    rcases mem_processJSONLFile_types fs fp cid db x hx with h | h | h | h
    · exact Or.inl h
    · exact Or.inr (by rw [h]; decide)
    · exact Or.inr (by rw [h]; decide)
    · exact Or.inr (by rw [h]; decide)
  refine ⟨hJ filePath, ?_, fun x => hJmem filePath x, ?_⟩
  · unfold processConversationEntries
    cases hc : db.conversations.find? fun c => c.id = cid with
    | none => rfl
    | some conversation =>
      dsimp only
      split
      · exact hJ conversation.sourceFilePath
      · rcases hstep : (sortByEntryIndex
            (db.entries.filter fun e => e.conversationId = cid)).enum.foldl
            (processStoredEntry cid (sortByEntryIndex
              (db.entries.filter fun e => e.conversationId = cid))) (db, zeroCounts)
          with ⟨db1, res1⟩
        have := storedFold_jsonObjects cid
          (sortByEntryIndex (db.entries.filter fun e => e.conversationId = cid))
          (sortByEntryIndex (db.entries.filter fun e => e.conversationId = cid)).enum
          db zeroCounts
        rw [hstep] at this
        dsimp only at this ⊢
        simpa [hstep] using this
  · intro x hx
    unfold processConversationEntries at hx
    cases hc : db.conversations.find? fun c => c.id = cid with
    | none =>
      rw [hc] at hx
      exact Or.inl hx
    | some conversation =>
      rw [hc] at hx
      dsimp only at hx
      split at hx
      · exact hJmem conversation.sourceFilePath x hx
      · rcases mem_storedFold_artifacts cid
            (sortByEntryIndex (db.entries.filter fun e => e.conversationId = cid))
            (sortByEntryIndex (db.entries.filter fun e => e.conversationId = cid)).enum
            db zeroCounts x hx with h | h
        · exact Or.inl h
        · exact Or.inr (by rw [h]; decide)

/-- Claim **C10 witness.** The zero counts and the type conclusion at scenario A:
both stored artifacts are of non-`json_object` type. -/
theorem c10_no_json_object_artifacts_witness :
    (processJSONLFile exScenarioAFs "/logs/a.jsonl" 7 Db.empty).1.jsonObjects = 0 ∧
    (processConversationEntries exScenarioAFs 7 Db.empty).1.jsonObjects = 0 ∧
    (((processJSONLFile exScenarioAFs "/logs/a.jsonl" 7 Db.empty).2.artifacts.headD
        (storeRow (codeBlockArtifact 0 ⟨"", ""⟩ none))) ∈ Db.empty.artifacts ∨
     ((processJSONLFile exScenarioAFs "/logs/a.jsonl" 7 Db.empty).2.artifacts.headD
        (storeRow (codeBlockArtifact 0 ⟨"", ""⟩ none))).artifactType ≠ "json_object") :=
  ⟨(c10_no_json_object_artifacts exScenarioAFs "/logs/a.jsonl" 7 Db.empty).1,
   (c10_no_json_object_artifacts exScenarioAFs "/logs/a.jsonl" 7 Db.empty).2.1,
   (c10_no_json_object_artifacts exScenarioAFs "/logs/a.jsonl" 7 Db.empty).2.2.1 _
     (by decide)⟩

/-! ### C5: checkpoint monotonicity -/

/-- The stored checkpoint line count of a file (0 when no checkpoint row
exists yet), exactly as `parseJSONL` computes its `startLine`. -/
def checkpointOf (db : Db) (filePath : String) : Nat :=
  ((getParseState db filePath).map fun ps => ps.lastLineNumber).getD 0

theorem find_map_upsert (path : String) (row : ParseState) (hrow : row.filePath = path) :
    ∀ (l : List ParseState),
      (l.map fun ps => if ps.filePath = path then row else ps).find?
          (fun ps => ps.filePath = path) =
        if (l.find? fun ps => ps.filePath = path).isSome then some row else none := by
  intro l
  induction l with
  | nil => simp
  | cons p rest ih =>
    by_cases hp : p.filePath = path
    · simp [hp, hrow]
    · simp [hp, ih]

theorem getParseState_updateParseState_self (db : Db) (path : String) (n : Nat)
    (h : Option String) :
    getParseState (updateParseState db path n h) path =
      some { filePath := path, lastLineNumber := n, lastEntryHash := h } := by
  unfold updateParseState getParseState
  dsimp only
  split
  · next hfound =>
    rw [find_map_upsert path _ rfl]
    simp only [hfound, if_true]
  · next hnotfound =>
    rw [List.find?_append]
    have : (db.parseStates.find? fun ps => ps.filePath = path) = none := by
      cases hf : db.parseStates.find? fun ps => ps.filePath = path with
      | none => rfl
      | some ps => exact absurd (by simp [getParseState, hf]) hnotfound
    simp [this]

theorem checkpointOf_updateParseState_self (db : Db) (path : String) (n : Nat)
    (h : Option String) :
    checkpointOf (updateParseState db path n h) path = n := by
  unfold checkpointOf
  rw [getParseState_updateParseState_self]
  rfl

theorem checkpointOf_updateConversationStats (db : Db) (cid : Nat) (path : String) :
    checkpointOf (updateConversationStats db cid) path = checkpointOf db path := rfl

/-- Claim **C5.** For every event-log file, a `parseJSONL` run never decreases the
stored checkpoint line count; and whenever the file's non-empty line count
exceeds the current checkpoint, the checkpoint afterwards equals the file's
current total non-empty line count - also when lines failed to decode or no
new entries were inserted (the final update is unconditional on that
branch). -/
theorem c5_checkpoint_monotonic (fs : Fs) (filePath : String)
    (projectId : Option Nat) (db : Db) :
    checkpointOf db filePath ≤ checkpointOf (parseJSONL fs filePath projectId db).2 filePath ∧
    (∀ fm, fs filePath = some fm → fm.lines.length > checkpointOf db filePath →
       checkpointOf (parseJSONL fs filePath projectId db).2 filePath = fm.lines.length) := by
  unfold parseJSONL
  cases hfs : fs filePath with
  | none =>
    refine ⟨le_refl _, ?_⟩
    intro fm hfm
    exact absurd hfm (by simp)
  | some fm =>
    dsimp only
    by_cases hlen : fm.lines.length ≤ checkpointOf db filePath
    · rw [if_pos (by exact hlen)]
      refine ⟨le_refl _, ?_⟩
      intro fm' hfm' hgt
      cases hfm'
      omega
    · rw [if_neg (by exact hlen)]
      dsimp only
      have hcp : checkpointOf db filePath
          = ((getParseState db filePath).map fun ps => ps.lastLineNumber).getD 0 := rfl
      constructor
      · rw [if_pos (Or.inr (by rw [← hcp]; omega))]
        rw [checkpointOf_updateConversationStats, checkpointOf_updateParseState_self]
        omega
      · intro fm' hfm' _
        cases hfm'
        rw [if_pos (Or.inr (by rw [← hcp]; omega))]
        rw [checkpointOf_updateConversationStats, checkpointOf_updateParseState_self]

/-- Claim **C5 witness.** Parsing the two-line scenario file from an empty store:
the checkpoint does not decrease, and equals the file's line count (2)
afterwards. -/
theorem c5_checkpoint_monotonic_witness :
    checkpointOf Db.empty "/logs/a.jsonl" ≤
      checkpointOf (parseJSONL exScenarioAFs "/logs/a.jsonl" none Db.empty).2
        "/logs/a.jsonl" ∧
    checkpointOf (parseJSONL exScenarioAFs "/logs/a.jsonl" none Db.empty).2
        "/logs/a.jsonl" = (exFile exToolUseLine exResultOkLine).lines.length :=
  ⟨(c5_checkpoint_monotonic exScenarioAFs "/logs/a.jsonl" none Db.empty).1,
   (c5_checkpoint_monotonic exScenarioAFs "/logs/a.jsonl" none Db.empty).2
     (exFile exToolUseLine exResultOkLine) rfl (by decide)⟩

/-! ### C7: format dispatch and missing files -/

/-- The empty file system (no path exists). -/
def exNoFs : Fs := fun _ => none

/-- Claim **C7 (amended).** `processFile` dispatches on the last dot-separated
segment of the lowercased path, and the extension check precedes the
existence check: when that segment is neither `jsonl` nor `txt`, it returns
the typed `Unknown format` failure with the store untouched; when the
segment is recognised but the path names a missing file, it returns the
typed `File not found` failure with the store untouched.  (The unamended
claim, which demands `FileNotFound` for *every* missing path, fails for a
missing path with an unrecognised extension — see the counterexample.) -/
theorem c7_format_dispatch (fs : Fs) (filePath : String) (projectId : Option Nat)
    (db : Db) :
    (lastDotSegment filePath ≠ "jsonl" → lastDotSegment filePath ≠ "txt" →
       processFile fs filePath projectId db =
         ({ success := false, error := some "Unknown format", conversationId := none,
            sessionId := none, newEntries := 0, skipped := 0, totalLines := none }, db)) ∧
    ((lastDotSegment filePath = "jsonl" ∨ lastDotSegment filePath = "txt") →
       fs filePath = none →
       processFile fs filePath projectId db =
         ({ success := false, error := some "File not found", conversationId := none,
            sessionId := none, newEntries := 0, skipped := 0, totalLines := none }, db)) := by
  constructor
  · intro h1 h2
    unfold processFile
    rw [if_neg (by exact h1), if_neg (by exact h2)]
  · rintro (h | h) hmiss
    · unfold processFile
      rw [if_pos (by exact h)]
      unfold parseJSONL
      rw [hmiss]
    · unfold processFile
      by_cases hj : lastDotSegment filePath = "jsonl"
      · rw [if_pos (by exact hj)]
        unfold parseJSONL
        rw [hmiss]
      · rw [if_neg (by exact hj), if_pos (by exact h)]
        unfold parseTXT
        rw [hmiss]

/-- Claim **C7 witness.** Concrete runs of both amended clauses: a `.xyz` path
gets `Unknown format`, a missing `.jsonl` path gets `File not found`, and in
both cases the store is unchanged. -/
theorem c7_format_dispatch_witness :
    processFile exNoFs "a.xyz" none Db.empty =
      ({ success := false, error := some "Unknown format", conversationId := none,
         sessionId := none, newEntries := 0, skipped := 0, totalLines := none },
       Db.empty) ∧
    processFile exNoFs "b.jsonl" none Db.empty =
      ({ success := false, error := some "File not found", conversationId := none,
         sessionId := none, newEntries := 0, skipped := 0, totalLines := none },
       Db.empty) :=
  ⟨(c7_format_dispatch exNoFs "a.xyz" none Db.empty).1 (by decide) (by decide),
   (c7_format_dispatch exNoFs "b.jsonl" none Db.empty).2 (Or.inl (by decide)) rfl⟩

/-- Claim **C7 counterexample.** The path `x.pdf` names a missing file (the file
system is empty), so the claim as stated demands the typed `FileNotFound`
failure; but the code checks the extension first and returns `Unknown
format` instead. -/
theorem c7_counterexample :
    exNoFs "x.pdf" = none ∧
    (processFile exNoFs "x.pdf" none Db.empty).1.error = some "Unknown format" ∧
    (processFile exNoFs "x.pdf" none Db.empty).1.error ≠ some "File not found" ∧
    (processFile exNoFs "x.pdf" none Db.empty).2 = Db.empty := by
  refine ⟨rfl, by decide, by decide, by decide⟩

/-! ### C3: entry-hash uniqueness -/

/-- No two entries of a list share the same `(conversation, content hash)`
pair. -/
def EntriesUniqueL (l : List Entry) : Prop :=
  l.Pairwise fun a b => a.conversationId = b.conversationId → a.entryHash ≠ b.entryHash

/-- The §3 invariant: for all conversations, no two stored entries share the
same content hash. -/
def EntriesUnique (db : Db) : Prop := EntriesUniqueL db.entries

theorem insertEntry_dup (conversationId : Nat) (entryHash : String) (entryIndex : Nat)
    (role content : String) (timestamp : Option String) (db : Db)
    (hdup : ∃ e ∈ db.entries, e.conversationId = conversationId ∧ e.entryHash = entryHash) :
    insertEntry conversationId entryHash entryIndex role content timestamp db
      = (false, db) := by
  unfold insertEntry
  rw [if_pos]
  rcases hdup with ⟨e, he, h1, h2⟩
  exact List.any_eq_true.mpr ⟨e, he, by simp [h1, h2]⟩

theorem insertEntry_unique (conversationId : Nat) (entryHash : String)
    (entryIndex : Nat) (role content : String) (timestamp : Option String) (db : Db)
    (h : EntriesUniqueL db.entries) :
    EntriesUniqueL (insertEntry conversationId entryHash entryIndex role content
      timestamp db).2.entries := by
  unfold insertEntry
  split
  · exact h
  · next hno =>
    dsimp only
    rw [EntriesUniqueL, List.pairwise_append]
    refine ⟨h, by simp, ?_⟩
    intro a ha b hb
    simp only [List.mem_singleton] at hb
    subst hb
    intro hcid hhash
    exact hno (List.any_eq_true.mpr ⟨a, ha, by simp_all⟩)

theorem parseJsonlLine_unique (conversationId : Nat) (st : JsonlLoopState)
    (line : LineModel) (h : EntriesUniqueL st.db.entries) :
    EntriesUniqueL (parseJsonlLine conversationId st line).db.entries := by
  unfold parseJsonlLine
  cases line.parsed with
  | none => exact h
  | some entry =>
    dsimp only
    split
    · exact h
    · split
      · exact h
      · split
        · exact h
        · exact insertEntry_unique _ _ _ _ _ _ st.db h

theorem jsonlFold_unique (conversationId : Nat) :
    ∀ (l : List LineModel) (st : JsonlLoopState), EntriesUniqueL st.db.entries →
      EntriesUniqueL ((l.foldl (parseJsonlLine conversationId) st).db.entries) := by
  intro l
  induction l with
  | nil => intro st h; exact h
  | cons line rest ih =>
    intro st h
    exact ih _ (parseJsonlLine_unique conversationId st line h)

theorem txtBlockStep_unique (conversationId : Nat) (st : TxtLoopState)
    (rawBlock : String) (h : EntriesUniqueL st.db.entries) :
    EntriesUniqueL (txtBlockStep conversationId st rawBlock).db.entries := by
  unfold txtBlockStep
  dsimp only
  split
  · exact h
  · split
    · exact h
    · split
      · exact h
      · rcases hins : insertEntry conversationId (hashContent (jsTrim rawBlock))
            st.entryIndex st.currentRole (jsTrim rawBlock) none st.db with ⟨ins, db'⟩
        have := insertEntry_unique conversationId (hashContent (jsTrim rawBlock))
          st.entryIndex st.currentRole (jsTrim rawBlock) none st.db h
        rw [hins] at this
        simpa [hins] using this

theorem txtFold_unique (conversationId : Nat) :
    ∀ (l : List String) (st : TxtLoopState), EntriesUniqueL st.db.entries →
      EntriesUniqueL ((l.foldl (txtBlockStep conversationId) st).db.entries) := by
  intro l
  induction l with
  | nil => intro st h; exact h
  | cons b rest ih =>
    intro st h
    exact ih _ (txtBlockStep_unique conversationId st b h)

theorem findOrCreateConversation_entries (sessionId filePath fileType : String)
    (metadata : SessionMeta) (db : Db) :
    (findOrCreateConversation sessionId filePath fileType metadata db).2.entries
      = db.entries := by
  unfold findOrCreateConversation
  split <;> rfl

theorem setProjectId_entries (db : Db) (cid : Nat) (pid : Option Nat) :
    (setProjectId db cid pid).entries = db.entries := rfl

theorem updateParseState_entries (db : Db) (p : String) (n : Nat) (h : Option String) :
    (updateParseState db p n h).entries = db.entries := by
  unfold updateParseState
  split <;> rfl

theorem updateConversationStats_entries (db : Db) (cid : Nat) :
    (updateConversationStats db cid).entries = db.entries := rfl

theorem parseJSONL_unique (fs : Fs) (filePath : String) (projectId : Option Nat)
    (db : Db) (h : EntriesUnique db) :
    EntriesUnique (parseJSONL fs filePath projectId db).2 := by
  unfold parseJSONL
  cases hfs : fs filePath with
  | none => exact h
  | some fm =>
    dsimp only
    split
    · exact h
    · unfold EntriesUnique
      dsimp only
      split <;> split <;>
        try rw [updateConversationStats_entries, updateParseState_entries]
      all_goals
        apply jsonlFold_unique
        dsimp only
        try rw [setProjectId_entries]
        rw [findOrCreateConversation_entries]
        exact h

theorem parseTXT_unique (fs : Fs) (filePath : String) (projectId : Option Nat)
    (db : Db) (h : EntriesUnique db) :
    EntriesUnique (parseTXT fs filePath projectId db).2 := by
  unfold parseTXT
  cases hfs : fs filePath with
  | none => exact h
  | some fm =>
    dsimp only
    split
    · exact h
    · unfold EntriesUnique
      dsimp only
      rw [updateConversationStats_entries, updateParseState_entries]
      apply txtFold_unique
      dsimp only
      split
      · rw [setProjectId_entries, findOrCreateConversation_entries]; exact h
      · rw [findOrCreateConversation_entries]; exact h

/-- Claim **C3.** The `(conversation, content hash)` pair of stored entries is
unique: an insert whose pair already exists is rejected as an expected
duplicate (returning `false`, chargeable to the skip counter) and leaves the
stored entries unchanged; and the no-two-entries-share-a-hash invariant is
preserved by every parse of either format, hence across repeated parses of
the same or different underlying lines. -/
theorem c3_entry_hash_unique (db : Db) (h : EntriesUnique db) (fs : Fs)
    (filePath : String) (projectId : Option Nat) :
    EntriesUnique (parseJSONL fs filePath projectId db).2 ∧
    EntriesUnique (parseTXT fs filePath projectId db).2 ∧
    (∀ (cid : Nat) (ehash : String) (idx : Nat) (role content : String)
       (ts : Option String),
       (∃ e ∈ db.entries, e.conversationId = cid ∧ e.entryHash = ehash) →
       insertEntry cid ehash idx role content ts db = (false, db)) :=
  ⟨parseJSONL_unique fs filePath projectId db h,
   parseTXT_unique fs filePath projectId db h,
   fun cid ehash idx role content ts hdup =>
     insertEntry_dup cid ehash idx role content ts db hdup⟩

/-- A store holding one entry of conversation 1 with hash `h1`. -/
def exDbOne : Db :=
  { conversations := [], parseStates := [], artifacts := [],
    entries := [{ id := 1, conversationId := 1, entryHash := "h1", entryIndex := 0,
                  role := "user", content := "hello", timestamp := none }],
    nextConvId := 2, nextEntryId := 2 }

/-- Claim **C3 witness.** The invariant survives a concrete parse over a store
already holding an entry, and re-inserting the same `(conversation, hash)`
pair is rejected with the store unchanged. -/
theorem c3_entry_hash_unique_witness :
    EntriesUnique (parseJSONL exScenarioAFs "/logs/a.jsonl" none exDbOne).2 ∧
    insertEntry 1 "h1" 5 "user" "again" none exDbOne = (false, exDbOne) := by
  have h := c3_entry_hash_unique exDbOne
    (by unfold EntriesUnique EntriesUniqueL exDbOne; simp)
    exScenarioAFs "/logs/a.jsonl" none
  exact ⟨h.1, h.2.2 1 "h1" 5 "user" "again" none
    ⟨{ id := 1, conversationId := 1, entryHash := "h1", entryIndex := 0,
       role := "user", content := "hello", timestamp := none },
     by decide, rfl, rfl⟩⟩

/-! ### C8: roles of stored entries -/

/-- The accepted top-level discriminants of the line loop. -/
def acceptedType (entry : JVal) : Bool :=
  typeIs entry "user" || typeIs entry "assistant" || typeIs entry "tool_result"

theorem parseJsonlLine_entries (conversationId : Nat) (st : JsonlLoopState)
    (line : LineModel) :
    ((parseJsonlLine conversationId st line).db.entries = st.db.entries) ∨
    (∃ entry : JVal, line.parsed = some entry ∧ acceptedType entry = true ∧
       ∃ content : String,
         (parseJsonlLine conversationId st line).db.entries = st.db.entries ++
           [{ id := st.db.nextEntryId, conversationId := conversationId,
              entryHash := hashContent line.raw, entryIndex := st.entryIndex,
              role := extractRole entry, content := content,
              timestamp := tsOf entry }]) := by
  unfold parseJsonlLine
  cases hp : line.parsed with
  | none => exact Or.inl rfl
  | some entry =>
    dsimp only
    split
    · exact Or.inl rfl
    · next hacc =>
      split
      · exact Or.inl rfl
      · next content hcontent =>
        split
        · exact Or.inl rfl
        · unfold insertEntry
          split
          · exact Or.inl rfl
          · exact Or.inr ⟨entry, rfl, by
              unfold acceptedType
              exact Bool.not_not_eq.mp (by simpa using hacc), content, rfl⟩

theorem mem_jsonlFold_entries (conversationId : Nat) :
    ∀ (l : List LineModel) (st : JsonlLoopState) (e : Entry),
      e ∈ ((l.foldl (parseJsonlLine conversationId) st).db.entries) →
      e ∈ st.db.entries ∨
      ∃ entry : JVal, acceptedType entry = true ∧ e.role = extractRole entry := by
  intro l
  induction l with
  | nil => intro st e he; exact Or.inl he
  | cons line rest ih =>
    intro st e he
    rw [List.foldl_cons] at he
    rcases ih _ e he with he' | hprov
    · rcases parseJsonlLine_entries conversationId st line with hsame | ⟨entry, _, hacc, content, happ⟩
      · rw [hsame] at he'
        exact Or.inl he'
      · rw [happ] at he'
        rcases List.mem_append.mp he' with h1 | h1
        · exact Or.inl h1
        · simp only [List.mem_singleton] at h1
          subst h1
          exact Or.inr ⟨entry, hacc, rfl⟩
    · exact Or.inr hprov

theorem extractRole_of_msgRole (j v : JVal) (h : msgRoleTruthy j = some v) :
    extractRole j = jsCoerce v := by
  unfold extractRole
  rw [h]

theorem extractRole_of_no_msgRole (j : JVal) (hnone : msgRoleTruthy j = none)
    (hacc : acceptedType j = true) :
    extractRole j = "user" ∨ extractRole j = "assistant" ∨ extractRole j = "tool" := by
  unfold extractRole
  rw [hnone]
  unfold acceptedType at hacc
  simp only [Bool.or_eq_true] at hacc
  rcases hacc with (hu | ha) | ht
  · left
    simp [hu]
  · by_cases hu : typeIs j "user" = true
    · left; simp [hu]
    · right; left; simp [hu, ha]
  · by_cases hu : typeIs j "user" = true
    · left; simp [hu]
    · by_cases ha : typeIs j "assistant" = true
      · right; left; simp [hu, ha]
      · right; right; simp [hu, ha, ht]

/-- Claim **C8 (amended).** Every entry stored by the event-log parser comes from
a decoded line with an accepted discriminant (`user`, `assistant`,
`tool_result`), and its role is `extractRole` of that line: the nested
message role verbatim when that field is present and non-empty (in which
case it may be **any** string — where the unamended claim fails), otherwise
derived from the discriminant and therefore one of `user`, `assistant`,
`tool`; the `system` default is never reached for stored entries. -/
theorem c8_entry_roles (fs : Fs) (filePath : String) (projectId : Option Nat)
    (db : Db) (e : Entry) (he : e ∈ (parseJSONL fs filePath projectId db).2.entries) :
    e ∈ db.entries ∨
    ∃ entry : JVal, acceptedType entry = true ∧ e.role = extractRole entry ∧
      ((∃ v, msgRoleTruthy entry = some v ∧ e.role = jsCoerce v) ∨
       (msgRoleTruthy entry = none ∧
          (e.role = "user" ∨ e.role = "assistant" ∨ e.role = "tool"))) := by
  have hmain : e ∈ db.entries ∨
      ∃ entry : JVal, acceptedType entry = true ∧ e.role = extractRole entry := by
    unfold parseJSONL at he
    cases hfs : fs filePath with
    | none =>
      rw [hfs] at he
      exact Or.inl he
    | some fm =>
      rw [hfs] at he
      dsimp only at he
      split at he
      · exact Or.inl he
      · dsimp only at he
        split at he <;> split at he <;> split at he <;>
          try rw [updateConversationStats_entries, updateParseState_entries] at he
        all_goals
          rcases mem_jsonlFold_entries _ _ _ e he with h1 | h1
          · dsimp only at h1
            first
              | (rw [setProjectId_entries, findOrCreateConversation_entries] at h1
                 exact Or.inl h1)
              | (rw [findOrCreateConversation_entries] at h1
                 exact Or.inl h1)
          · exact Or.inr h1
  rcases hmain with h | ⟨entry, hacc, hrole⟩
  · exact Or.inl h
  · refine Or.inr ⟨entry, hacc, hrole, ?_⟩
    cases hmr : msgRoleTruthy entry with
    | some v =>
      exact Or.inl ⟨v, rfl, by rw [hrole, extractRole_of_msgRole entry v hmr]⟩
    | none =>
      refine Or.inr ⟨rfl, ?_⟩
      rw [hrole]
      exact extractRole_of_no_msgRole entry hmr hacc

/-- A line whose nested message role is the arbitrary string `weird`. -/
def exWeirdRoleLine : JVal :=
  JVal.obj [("type", JVal.str "user"),
    ("message", JVal.obj [("role", JVal.str "weird"),
      ("content", JVal.str "hi")])]

/-- The file system holding only the weird-role file. -/
def exWeirdFs : Fs :=
  exFsOf "/logs/w.jsonl" { text := "", lines := [{ raw := "w0", parsed := some exWeirdRoleLine }] }

/-- Claim **C8 counterexample.** The nested message role `weird` is stored
verbatim, so the stored entry's role is not one of
user/assistant/tool/system as the claim states. -/
theorem c8_counterexample :
    ((parseJSONL exWeirdFs "/logs/w.jsonl" none Db.empty).2.entries.map
       fun e => e.role) = ["weird"] ∧
    ("weird" ≠ "user" ∧ "weird" ≠ "assistant" ∧ "weird" ≠ "tool" ∧
     "weird" ≠ "system") :=
  ⟨by decide, by decide⟩

/-- Claim **C8 witness.** The amended statement applied to the first entry stored
for scenario A (an assistant line whose nested role is `assistant`). -/
theorem c8_entry_roles_witness :
    ((parseJSONL exScenarioAFs "/logs/a.jsonl" none Db.empty).2.entries.headD
        { id := 0, conversationId := 0, entryHash := "", entryIndex := 0,
          role := "", content := "", timestamp := none }) ∈ Db.empty.entries ∨
    ∃ entry : JVal, acceptedType entry = true ∧
      ((parseJSONL exScenarioAFs "/logs/a.jsonl" none Db.empty).2.entries.headD
        { id := 0, conversationId := 0, entryHash := "", entryIndex := 0,
          role := "", content := "", timestamp := none }).role = extractRole entry ∧
      ((∃ v, msgRoleTruthy entry = some v ∧
          ((parseJSONL exScenarioAFs "/logs/a.jsonl" none Db.empty).2.entries.headD
            { id := 0, conversationId := 0, entryHash := "", entryIndex := 0,
              role := "", content := "", timestamp := none }).role = jsCoerce v) ∨
       (msgRoleTruthy entry = none ∧
          (((parseJSONL exScenarioAFs "/logs/a.jsonl" none Db.empty).2.entries.headD
             { id := 0, conversationId := 0, entryHash := "", entryIndex := 0,
               role := "", content := "", timestamp := none }).role = "user" ∨
           ((parseJSONL exScenarioAFs "/logs/a.jsonl" none Db.empty).2.entries.headD
             { id := 0, conversationId := 0, entryHash := "", entryIndex := 0,
               role := "", content := "", timestamp := none }).role = "assistant" ∨
           ((parseJSONL exScenarioAFs "/logs/a.jsonl" none Db.empty).2.entries.headD
             { id := 0, conversationId := 0, entryHash := "", entryIndex := 0,
               role := "", content := "", timestamp := none }).role = "tool"))) :=
  c8_entry_roles exScenarioAFs "/logs/a.jsonl" none Db.empty _ (by decide)

/-! ### C9: prompt context of tool calls -/

/-- A conforming event-log user line whose text lives, per the input format,
under `message.content` (there is no top-level `content` property). -/
def exPrecedingUserLine : JVal :=
  JVal.obj [("type", JVal.str "user"),
    ("message", JVal.obj [("role", JVal.str "user"),
      ("content", JVal.str "please read the config file")])]

/-- Source for C9: a user line with text, then the `t1` invocation at line
index 1. -/
def exPromptCtxFs : Fs :=
  exFsOf "/logs/p.jsonl"
    { text := "", lines := [{ raw := "p0", parsed := some exPrecedingUserLine },
                            { raw := "p1", parsed := some exToolUseLine }] }

/-- Claim **C9 (code bug).** For a conforming event-log source, the entry
preceding the invocation carries non-empty text (under `message.content`),
so the claim requires the stored prompt context to be its last 200
characters; but `getPromptContext` reads the **top-level** `content`
property of the raw decoded line — a field event-log lines do not carry —
so the persisted `tool_call` artifact's prompt context is NULL.  The final
conjunct shows the mechanism: a (non-conforming) line that did carry a
top-level `content` property would have produced a context. -/
theorem c9_prompt_context_bug :
    ((processJSONLFile exPromptCtxFs "/logs/p.jsonl" 1 Db.empty).2.artifacts.map
       fun a => (a.artifactType, a.promptContext)) = [("tool_call", none)] ∧
    extractContent exPrecedingUserLine = some "please read the config file" ∧
    exPrecedingUserLine.getField "content" = none ∧
    getPromptContext [some exPrecedingUserLine, some exToolUseLine] 1 = none ∧
    getPromptContext [some (JVal.obj [("content", JVal.str "TOP")]),
      some exToolUseLine] 1 = some "TOP" := by
  refine ⟨by decide, rfl, rfl, rfl, by decide⟩

/-! ### C4: idempotence of extraction -/

theorem artifactExists_mono {db db' : Db}
    (hsub : ∀ x ∈ db.artifacts, x ∈ db'.artifacts) (cid : Nat) (h : String)
    (hex : artifactExists db cid h = true) : artifactExists db' cid h = true := by
  rcases List.any_eq_true.mp hex with ⟨x, hx, hp⟩
  exact List.any_eq_true.mpr ⟨x, hsub x hx, hp⟩

theorem artifactExists_storeArtifact_self (db : Db) (a : ArtifactSpec) :
    artifactExists (storeArtifact db a) a.conversationId a.contentHash = true := by
  refine List.any_eq_true.mpr ⟨storeRow a, ?_, ?_⟩
  · simp [storeArtifact]
  · simp [storeRow]

theorem processToolCall_ensures (cid : Nat) (ea : List (Option JVal))
    (db : Db) (res : ExtractResult) (toolId : Option JVal) (call : ToolCallRec) :
    artifactExists (processToolCall cid ea (db, res) (toolId, call)).1 cid
      (toolCallHash toolId call) = true := by
  unfold processToolCall
  dsimp only
  split
  · next hex => exact hex
  · have hbase : artifactExists
        (storeArtifact db (toolCallArtifact cid ea toolId call)) cid
        (toolCallHash toolId call) = true := by
      have := artifactExists_storeArtifact_self db (toolCallArtifact cid ea toolId call)
      simpa [toolCallArtifact] using this
    split
    · split
      · exact hbase
      · exact artifactExists_mono
          (fun x hx => by simp [storeArtifact] at hx ⊢; tauto) cid _ hbase
    · exact hbase

theorem processToolCall_skip (cid : Nat) (ea : List (Option JVal))
    (db : Db) (res : ExtractResult) (toolId : Option JVal) (call : ToolCallRec)
    (hex : artifactExists db cid (toolCallHash toolId call) = true) :
    processToolCall cid ea (db, res) (toolId, call) =
      (db, { res with skipped := res.skipped + 1 }) := by
  unfold processToolCall
  dsimp only
  rw [if_pos hex]

theorem toolFold_sub (cid : Nat) (ea : List (Option JVal)) (l : ToolCallMap)
    (db : Db) (res : ExtractResult) :
    ∀ x ∈ db.artifacts, x ∈ (l.foldl (processToolCall cid ea) (db, res)).1.artifacts := by
  intro x hx
  rcases toolFold_artifacts_prefix cid ea l db res with ⟨added, h⟩
  rw [h]
  exact List.mem_append_left _ hx

theorem codeFold_sub (cid : Nat) (ea : List (Option JVal)) (l : List (Nat × Option JVal))
    (db : Db) (res : ExtractResult) :
    ∀ x ∈ db.artifacts, x ∈ (l.foldl (processEntryCodeBlocks cid ea) (db, res)).1.artifacts := by
  intro x hx
  rcases codeFold_artifacts_prefix cid ea l db res with ⟨added, h⟩
  rw [h]
  exact List.mem_append_left _ hx

theorem toolFold_ensures (cid : Nat) (ea : List (Option JVal)) :
    ∀ (l : ToolCallMap) (db : Db) (res : ExtractResult),
      ∀ kv ∈ l, artifactExists (l.foldl (processToolCall cid ea) (db, res)).1 cid
        (toolCallHash kv.1 kv.2) = true := by
  intro l
  induction l with
  | nil => intro db res kv hkv; simp at hkv
  | cons kv0 rest ih =>
    intro db res kv hkv
    rcases kv0 with ⟨toolId, call⟩
    rcases hstep : processToolCall cid ea (db, res) (toolId, call) with ⟨db', res'⟩
    rw [List.foldl_cons, hstep]
    rcases List.mem_cons.mp hkv with hkv | hkv
    · subst hkv
      have hbase := processToolCall_ensures cid ea db res toolId call
      rw [hstep] at hbase
      exact artifactExists_mono (toolFold_sub cid ea rest db' res') cid _ hbase
    · exact ih db' res' kv hkv

theorem toolFold_stable (cid : Nat) (ea : List (Option JVal)) :
    ∀ (l : ToolCallMap) (db : Db) (res : ExtractResult),
      (∀ kv ∈ l, artifactExists db cid (toolCallHash kv.1 kv.2) = true) →
      (l.foldl (processToolCall cid ea) (db, res)).1 = db := by
  intro l
  induction l with
  | nil => intro db res _; rfl
  | cons kv0 rest ih =>
    intro db res hall
    rcases kv0 with ⟨toolId, call⟩
    rw [List.foldl_cons,
      processToolCall_skip cid ea db res toolId call
        (hall (toolId, call) (List.mem_cons_self _ _))]
    exact ih db _ fun kv hkv => hall kv (List.mem_cons_of_mem _ hkv)

theorem processCodeBlock_ensures (cid : Nat) (ea : List (Option JVal)) (i : Nat)
    (db : Db) (res : ExtractResult) (block : CodeBlock) :
    artifactExists (processCodeBlock cid ea i (db, res) block).1 cid
      (hashContent block.content) = true := by
  unfold processCodeBlock
  dsimp only
  split
  · next hex => exact hex
  · have := artifactExists_storeArtifact_self db
      (codeBlockArtifact cid block (getPromptContext ea i))
    simpa [codeBlockArtifact] using this

theorem processCodeBlock_skip (cid : Nat) (ea : List (Option JVal)) (i : Nat)
    (db : Db) (res : ExtractResult) (block : CodeBlock)
    (hex : artifactExists db cid (hashContent block.content) = true) :
    processCodeBlock cid ea i (db, res) block =
      (db, { res with skipped := res.skipped + 1 }) := by
  unfold processCodeBlock
  dsimp only
  rw [if_pos hex]

theorem blockFold_sub (cid : Nat) (ea : List (Option JVal)) (i : Nat)
    (blocks : List CodeBlock) (db : Db) (res : ExtractResult) :
    ∀ x ∈ db.artifacts,
      x ∈ (blocks.foldl (processCodeBlock cid ea i) (db, res)).1.artifacts := by
  intro x hx
  rcases blockFold_artifacts_prefix cid ea i blocks db res with ⟨added, h⟩
  rw [h]
  exact List.mem_append_left _ hx

theorem blockFold_ensures (cid : Nat) (ea : List (Option JVal)) (i : Nat) :
    ∀ (blocks : List CodeBlock) (db : Db) (res : ExtractResult),
      ∀ b ∈ blocks, artifactExists (blocks.foldl (processCodeBlock cid ea i) (db, res)).1
        cid (hashContent b.content) = true := by
  intro blocks
  induction blocks with
  | nil => intro db res b hb; simp at hb
  | cons b0 rest ih =>
    intro db res b hb
    rcases hstep : processCodeBlock cid ea i (db, res) b0 with ⟨db', res'⟩
    rw [List.foldl_cons, hstep]
    rcases List.mem_cons.mp hb with hb | hb
    · subst hb
      have hbase := processCodeBlock_ensures cid ea i db res b
      rw [hstep] at hbase
      exact artifactExists_mono (blockFold_sub cid ea i rest db' res') cid _ hbase
    · exact ih db' res' b hb

theorem blockFold_stable (cid : Nat) (ea : List (Option JVal)) (i : Nat) :
    ∀ (blocks : List CodeBlock) (db : Db) (res : ExtractResult),
      (∀ b ∈ blocks, artifactExists db cid (hashContent b.content) = true) →
      (blocks.foldl (processCodeBlock cid ea i) (db, res)).1 = db := by
  intro blocks
  induction blocks with
  | nil => intro db res _; rfl
  | cons b0 rest ih =>
    intro db res hall
    rw [List.foldl_cons,
      processCodeBlock_skip cid ea i db res b0 (hall b0 (List.mem_cons_self _ _))]
    exact ih db _ fun b hb => hall b (List.mem_cons_of_mem _ hb)

theorem entryCodeBlocks_sub (cid : Nat) (ea : List (Option JVal))
    (db : Db) (res : ExtractResult) (iEntry : Nat × Option JVal) :
    ∀ x ∈ db.artifacts,
      x ∈ (processEntryCodeBlocks cid ea (db, res) iEntry).1.artifacts := by
  intro x hx
  rcases entryCodeBlocks_artifacts_prefix cid ea db res iEntry with ⟨added, h⟩
  rw [h]
  exact List.mem_append_left _ hx

/-- The per-entry obligation of the code-block pass. -/
def EntryBlocksStored (cid : Nat) (db : Db) (iEntry : Nat × Option JVal) : Prop :=
  ∀ entry, iEntry.2 = some entry → typeIs entry "assistant" = true →
    ∀ b ∈ extractCodeBlocks (assistantText entry),
      artifactExists db cid (hashContent b.content) = true

theorem processEntryCodeBlocks_ensures (cid : Nat) (ea : List (Option JVal))
    (db : Db) (res : ExtractResult) (iEntry : Nat × Option JVal) :
    EntryBlocksStored cid (processEntryCodeBlocks cid ea (db, res) iEntry).1 iEntry := by
  intro entry hentry hassist b hb
  rcases iEntry with ⟨i, pj⟩
  dsimp only at hentry
  subst hentry
  unfold processEntryCodeBlocks
  dsimp only
  rw [if_neg (by simpa using hassist)]
  exact blockFold_ensures cid ea i _ db res b hb

theorem processEntryCodeBlocks_stable (cid : Nat) (ea : List (Option JVal))
    (db : Db) (res : ExtractResult) (iEntry : Nat × Option JVal)
    (hall : EntryBlocksStored cid db iEntry) :
    (processEntryCodeBlocks cid ea (db, res) iEntry).1 = db := by
  rcases iEntry with ⟨i, pj⟩
  unfold processEntryCodeBlocks
  rcases pj with _ | entry
  · rfl
  · dsimp only
    split
    · rfl
    · next hassist =>
      exact blockFold_stable cid ea i _ db res
        (hall entry rfl (by simpa using hassist))

theorem codeFold_ensures (cid : Nat) (ea : List (Option JVal)) :
    ∀ (l : List (Nat × Option JVal)) (db : Db) (res : ExtractResult),
      ∀ ie ∈ l, EntryBlocksStored cid
        ((l.foldl (processEntryCodeBlocks cid ea) (db, res)).1) ie := by
  intro l
  induction l with
  | nil => intro db res ie hie; simp at hie
  | cons ie0 rest ih =>
    intro db res ie hie
    rcases hstep : processEntryCodeBlocks cid ea (db, res) ie0 with ⟨db', res'⟩
    rw [List.foldl_cons, hstep]
    rcases List.mem_cons.mp hie with hie | hie
    · subst hie
      have hbase := processEntryCodeBlocks_ensures cid ea db res ie
      rw [hstep] at hbase
      intro entry hentry hassist b hb
      have hx := hbase entry hentry hassist b hb
      exact artifactExists_mono
        (fun x hx' => by
          rcases codeFold_artifacts_prefix cid ea rest db' res' with ⟨added, h⟩
          rw [h]
          exact List.mem_append_left _ hx') cid _ hx
    · exact ih db' res' ie hie

theorem codeFold_stable (cid : Nat) (ea : List (Option JVal)) :
    ∀ (l : List (Nat × Option JVal)) (db : Db) (res : ExtractResult),
      (∀ ie ∈ l, EntryBlocksStored cid db ie) →
      (l.foldl (processEntryCodeBlocks cid ea) (db, res)).1 = db := by
  intro l
  induction l with
  | nil => intro db res _; rfl
  | cons ie0 rest ih =>
    intro db res hall
    rcases hstep : processEntryCodeBlocks cid ea (db, res) ie0 with ⟨db', res'⟩
    have hdb' : db' = db := by
      have := processEntryCodeBlocks_stable cid ea db res ie0
        (hall ie0 (List.mem_cons_self _ _))
      rw [hstep] at this
      exact this
    rw [List.foldl_cons, hstep, hdb']
    exact ih db _ fun ie hie => hall ie (List.mem_cons_of_mem _ hie)

/-- Running file-based extraction a second time over an unchanged source
changes nothing in the store. -/
theorem processJSONLFile_idempotent (fs : Fs) (filePath : String) (cid : Nat)
    (db : Db) :
    (processJSONLFile fs filePath cid (processJSONLFile fs filePath cid db).2).2
      = (processJSONLFile fs filePath cid db).2 := by
  cases hfs : fs filePath with
  | none => simp [processJSONLFile, hfs]
  | some fm =>
    rcases h1 : (buildToolCallMap (fm.lines.map fun l => l.parsed)).foldl
        (processToolCall cid (fm.lines.map fun l => l.parsed)) (db, zeroCounts)
      with ⟨dbA, resA⟩
    rcases h2 : (fm.lines.map fun l => l.parsed).enum.foldl
        (processEntryCodeBlocks cid (fm.lines.map fun l => l.parsed)) (dbA, resA)
      with ⟨dbB, resB⟩
    have hr1 : (processJSONLFile fs filePath cid db).2 = dbB := by
      unfold processJSONLFile
      rw [hfs]
      dsimp only
      rw [h1]
      dsimp only
      rw [h2]
    -- every tool-call hash is stored in dbA, hence in dbB
    have hens1 : ∀ kv ∈ buildToolCallMap (fm.lines.map fun l => l.parsed),
        artifactExists dbA cid (toolCallHash kv.1 kv.2) = true := by
      intro kv hkv
      have := toolFold_ensures cid (fm.lines.map fun l => l.parsed)
        (buildToolCallMap (fm.lines.map fun l => l.parsed)) db zeroCounts kv hkv
      rw [h1] at this
      exact this
    have hsubAB : ∀ x ∈ dbA.artifacts, x ∈ dbB.artifacts := by
      intro x hx
      have := codeFold_sub cid (fm.lines.map fun l => l.parsed)
        (fm.lines.map fun l => l.parsed).enum dbA resA x hx
      rw [h2] at this
      exact this
    have hensB : ∀ kv ∈ buildToolCallMap (fm.lines.map fun l => l.parsed),
        artifactExists dbB cid (toolCallHash kv.1 kv.2) = true :=
      fun kv hkv => artifactExists_mono hsubAB cid _ (hens1 kv hkv)
    -- every relevant code-block hash is stored in dbB
    have hensCode : ∀ ie ∈ (fm.lines.map fun l => l.parsed).enum,
        EntryBlocksStored cid dbB ie := by
      intro ie hie
      have := codeFold_ensures cid (fm.lines.map fun l => l.parsed)
        (fm.lines.map fun l => l.parsed).enum dbA resA ie hie
      rw [h2] at this
      exact this
    -- second run
    rw [hr1]
    unfold processJSONLFile
    rw [hfs]
    dsimp only
    rcases h3 : (buildToolCallMap (fm.lines.map fun l => l.parsed)).foldl
        (processToolCall cid (fm.lines.map fun l => l.parsed)) (dbB, zeroCounts)
      with ⟨dbC, resC⟩
    have hC : dbC = dbB := by
      have := toolFold_stable cid (fm.lines.map fun l => l.parsed)
        (buildToolCallMap (fm.lines.map fun l => l.parsed)) dbB zeroCounts hensB
      rw [h3] at this
      exact this
    rw [h3]
    dsimp only
    rw [hC]
    rcases h4 : (fm.lines.map fun l => l.parsed).enum.foldl
        (processEntryCodeBlocks cid (fm.lines.map fun l => l.parsed)) (dbB, resC)
      with ⟨dbD, resD⟩
    have hD : dbD = dbB := by
      have := codeFold_stable cid (fm.lines.map fun l => l.parsed)
        (fm.lines.map fun l => l.parsed).enum dbB resC hensCode
      rw [h4] at this
      exact this
    rw [h4]
    exact hD

/-- Claim **C4 (amended).** Extraction is idempotent at the level of stored
artifacts: a second run over an unchanged source inserts nothing (the store
after the rerun equals the store after the first run, for every source and
starting store).  For scenario A the first run from an empty store persists
exactly one `tool_call` artifact with outcome `success` and one
`tool_result` artifact with zero skips; the rerun inserts nothing and
reports `skipped = 1` — only the `tool_call` is counted as skipped, because
a duplicate `tool_result` is silently not re-inserted without touching the
skip counter (which is where the unamended claim's "both skipped" fails). -/
theorem c4_extraction_idempotent :
    (∀ (fs : Fs) (filePath : String) (cid : Nat) (db : Db),
       (processJSONLFile fs filePath cid (processJSONLFile fs filePath cid db).2).2
         = (processJSONLFile fs filePath cid db).2) ∧
    (processJSONLFile exScenarioAFs "/logs/a.jsonl" 7 Db.empty).1.toolCalls = 1 ∧
    (processJSONLFile exScenarioAFs "/logs/a.jsonl" 7 Db.empty).1.toolResults = 1 ∧
    (processJSONLFile exScenarioAFs "/logs/a.jsonl" 7 Db.empty).1.skipped = 0 ∧
    ((processJSONLFile exScenarioAFs "/logs/a.jsonl" 7 Db.empty).2.artifacts.map
       fun a => (a.artifactType, a.outcome)) =
      [("tool_call", some "success"), ("tool_result", some "success")] ∧
    (processJSONLFile exScenarioAFs "/logs/a.jsonl" 7
       (processJSONLFile exScenarioAFs "/logs/a.jsonl" 7 Db.empty).2).1.toolCalls = 0 ∧
    (processJSONLFile exScenarioAFs "/logs/a.jsonl" 7
       (processJSONLFile exScenarioAFs "/logs/a.jsonl" 7 Db.empty).2).1.toolResults = 0 ∧
    (processJSONLFile exScenarioAFs "/logs/a.jsonl" 7
       (processJSONLFile exScenarioAFs "/logs/a.jsonl" 7 Db.empty).2).1.skipped = 1 :=
  ⟨processJSONLFile_idempotent, by decide, by decide, by decide, by decide,
   by decide, by decide, by decide⟩

/-- Claim **C4 counterexample.** The rerun of scenario A reports `skipped = 1`,
not 2: the duplicate `tool_result` artifact is not counted as skipped, so
"the rerun skips both" is false (even though nothing is inserted). -/
theorem c4_counterexample :
    (processJSONLFile exScenarioAFs "/logs/a.jsonl" 7
       (processJSONLFile exScenarioAFs "/logs/a.jsonl" 7 Db.empty).2).1.skipped = 1 ∧
    (processJSONLFile exScenarioAFs "/logs/a.jsonl" 7
       (processJSONLFile exScenarioAFs "/logs/a.jsonl" 7 Db.empty).2).1.skipped ≠ 2 ∧
    (processJSONLFile exScenarioAFs "/logs/a.jsonl" 7 Db.empty).2.artifacts.length = 2 :=
  ⟨by decide, by decide, by decide⟩

end NW
